import Mathlib

/-!
Verification of the usage-dashboard component
(`src/ui/litellm-dashboard/src/components/usage.tsx`).

The TypeScript is embedded shallowly:

* JS primitive values that the dashboard stores in metric rows are modelled by
  `Val` (strings and numbers; the numbers appearing in the verified claims are
  all integers, so numbers are modelled as `Int`).
* JS objects are modelled as association lists in insertion order (`Obj`).
* JS `Date` objects handled by `fillMissingDates` are midnight dates; the
  runtime is modelled as UTC, so a date is a civil `(year, month, day)` triple
  (`CivilDate`), `d.setDate(d.getDate() + 1)` is the civil successor
  (`dateSucc`) and `d <= e` on such dates is lexicographic order (`dateLe`).
* Fallible JS code (expressions that would throw) returns `Option`.
-/

namespace Usage

/-- A JS primitive value stored in a metric row. -/
inductive Val where
  | str (s : String)
  | num (n : Int)
  deriving DecidableEq, Repr

/-- JS truthiness of a `Val`: `""` and `0` are falsy. -/
def Val.truthy : Val → Bool
  | .str s => s ≠ ""
  | .num n => n ≠ 0

/-- A JS object, as an association list of fields in insertion order. -/
abbrev Obj := List (String × Val)

/-- JS keyed read `o[k]` / `Map.get`: `none` models `undefined`. (Generic in the
value type: used both for row objects and for the request cache.) -/
def objGet {α : Type} (o : List (String × α)) (k : String) : Option α :=
  (o.find? (fun p => p.1 == k)).map (·.2)

/-- JS keyed write `o[k] = v` / `Map.set` (also the override in a spread
`{...o, k: v}`): the existing binding keeps its position, a fresh binding is
appended. -/
def objSet {α : Type} (o : List (String × α)) (k : String) (v : α) : List (String × α) :=
  match o with
  | [] => [(k, v)]
  | (k', v') :: rest => if k' == k then (k, v) :: rest else (k', v') :: objSet rest k v

/-! ## Civil dates (UTC model of the JS `Date` values used by `fillMissingDates`) -/

/-- A civil calendar date. Years are naturals: the dashboard only handles CE dates. -/
structure CivilDate where
  year : Nat
  month : Nat
  day : Nat
  deriving DecidableEq, Repr

/-- Gregorian leap-year rule. -/
def isLeap (y : Nat) : Bool := (y % 4 == 0 && y % 100 != 0) || y % 400 == 0

/-- Number of days of month `m` (1-based) of year `y`; 31 outside 1..12 so the
function is total. -/
def daysInMonth (y : Nat) : Nat → Nat
  | 1 => 31
  | 2 => if isLeap y then 29 else 28
  | 3 => 31
  | 4 => 30
  | 5 => 31
  | 6 => 30
  | 7 => 31
  | 8 => 31
  | 9 => 30
  | 10 => 31
  | 11 => 30
  | 12 => 31
  | _ => 31

/-- The date is a real calendar date. -/
def ValidDate (d : CivilDate) : Prop :=
  1 ≤ d.month ∧ d.month ≤ 12 ∧ 1 ≤ d.day ∧ d.day ≤ daysInMonth d.year d.month

instance (d : CivilDate) : Decidable (ValidDate d) := by
  unfold ValidDate; infer_instance

/-- JS `currentDate.setDate(currentDate.getDate() + 1)`: the next civil day. -/
def dateSucc (d : CivilDate) : CivilDate :=
  if d.day < daysInMonth d.year d.month then ⟨d.year, d.month, d.day + 1⟩
  else if d.month < 12 then ⟨d.year, d.month + 1, 1⟩
  else ⟨d.year + 1, 1, 1⟩

/-- JS `d <= e` on midnight dates (timestamp order = lexicographic civil order). -/
def dateLe (a b : CivilDate) : Bool :=
  a.year < b.year ||
    (a.year == b.year && (a.month < b.month || (a.month == b.month && a.day ≤ b.day)))

/-- JS `d < e` on midnight dates. -/
def dateLt (a b : CivilDate) : Bool :=
  a.year < b.year ||
    (a.year == b.year && (a.month < b.month || (a.month == b.month && a.day < b.day)))

/-- Days in year `y`. -/
def daysInYear (y : Nat) : Nat := if isLeap y then 366 else 365

/-- Days in all years before `y` (proleptic Gregorian, counting from year 0). -/
def daysBeforeYear : Nat → Nat
  | 0 => 0
  | y + 1 => daysBeforeYear y + daysInYear y

/-- Days of year `y` strictly before month `m` (1-based). -/
def daysBeforeMonth (y : Nat) : Nat → Nat
  | 0 => 0
  | 1 => 0
  | m + 2 => daysBeforeMonth y (m + 1) + daysInMonth y (m + 1)

/-- Linear day index of a civil date; the measure driving the `while` loop of
`fillMissingDates`. -/
def dayNumber (d : CivilDate) : Nat :=
  daysBeforeYear d.year + daysBeforeMonth d.year d.month + d.day

/-- `days_between` from the specification, on valid dates `s ≤ e`. -/
def daysBetween (s e : CivilDate) : Nat := dayNumber e - dayNumber s

theorem daysInMonth_pos (y m : Nat) : 0 < daysInMonth y m := by
  unfold daysInMonth
  split <;> first | omega | (split <;> omega)

theorem validDate_dateSucc {d : CivilDate} (h : ValidDate d) : ValidDate (dateSucc d) := by
  rcases d with ⟨y, m, dd⟩
  obtain ⟨h1, h2, h3, h4⟩ := h
  simp only at h1 h2 h3 h4
  unfold dateSucc
  simp only
  split
  · rename_i hday
    try simp only at hday
    exact ⟨h1, h2, by show 1 ≤ dd + 1; omega, by show dd + 1 ≤ daysInMonth y m; omega⟩
  · split
    · rename_i hday hm
      try simp only at hday hm
      refine ⟨?_, ?_, le_refl 1, ?_⟩
      · show 1 ≤ m + 1
        omega
      · show m + 1 ≤ 12
        omega
      · show 1 ≤ daysInMonth y (m + 1)
        exact daysInMonth_pos y (m + 1)
    · refine ⟨le_refl 1, ?_, le_refl 1, ?_⟩
      · show (1 : Nat) ≤ 12
        omega
      · show 1 ≤ daysInMonth (y + 1) 1
        exact daysInMonth_pos (y + 1) 1

theorem daysBeforeMonth_succ (y m : Nat) (h : 1 ≤ m) :
    daysBeforeMonth y (m + 1) = daysBeforeMonth y m + daysInMonth y m := by
  match m, h with
  | m + 1, _ => rfl

theorem daysBeforeMonth_mono (y : Nat) {m m' : Nat} (h : m ≤ m') :
    daysBeforeMonth y m ≤ daysBeforeMonth y m' := by
  induction m' with
  | zero => simp_all
  | succ k ih =>
    rcases Nat.lt_or_ge m (k + 1) with hlt | hge
    · have hk := ih (by omega)
      match k with
      | 0 => interval_cases m <;> simp [daysBeforeMonth]
      | k + 1 =>
        calc daysBeforeMonth y m ≤ daysBeforeMonth y (k + 1) := hk
          _ ≤ _ := by rw [daysBeforeMonth_succ y (k + 1) (by omega)]; omega
    · have : m = k + 1 := by omega
      subst this; exact le_refl _

/-- Within a valid month, the day offset stays below the year length. -/
theorem daysBeforeMonth_add_le (y m dd : Nat) (h1 : 1 ≤ m) (h2 : m ≤ 12)
    (h4 : dd ≤ daysInMonth y m) : daysBeforeMonth y m + dd ≤ daysInYear y := by
  interval_cases m <;>
    simp only [daysBeforeMonth, daysInMonth, daysInYear] at * <;>
    rcases Bool.eq_false_or_eq_true (isLeap y) with hb | hb <;> simp [hb] at * <;> omega

theorem dayNumber_dateSucc {d : CivilDate} (h : ValidDate d) :
    dayNumber (dateSucc d) = dayNumber d + 1 := by
  rcases d with ⟨y, m, dd⟩
  obtain ⟨h1, h2, h3, h4⟩ := h
  simp only at h1 h2 h3 h4
  unfold dateSucc
  simp only
  split
  · show daysBeforeYear y + daysBeforeMonth y m + (dd + 1) =
      daysBeforeYear y + daysBeforeMonth y m + dd + 1
    omega
  · rename_i hday
    try simp only at hday
    split
    · rename_i hm
      try simp only at hm
      show daysBeforeYear y + daysBeforeMonth y (m + 1) + 1 =
        daysBeforeYear y + daysBeforeMonth y m + dd + 1
      rw [daysBeforeMonth_succ y m h1]
      omega
    · rename_i hm
      try simp only at hm
      have hm12 : m = 12 := by omega
      subst hm12
      have hd31 : dd = 31 := by
        simp [daysInMonth] at hday h4; omega
      subst hd31
      have h13 : daysBeforeMonth y 13 = daysInYear y := by
        simp only [daysBeforeMonth, daysInMonth, daysInYear]
        rcases Bool.eq_false_or_eq_true (isLeap y) with hb | hb <;> simp [hb]
      have hle : daysBeforeMonth y 13 = daysBeforeMonth y 12 + daysInMonth y 12 := rfl
      show daysBeforeYear (y + 1) + daysBeforeMonth (y + 1) 1 + 1 =
        daysBeforeYear y + daysBeforeMonth y 12 + 31 + 1
      have hy1 : daysBeforeYear (y + 1) = daysBeforeYear y + daysInYear y := rfl
      have hb1 : daysBeforeMonth (y + 1) 1 = 0 := rfl
      simp [daysInMonth] at hle
      omega

theorem daysBeforeYear_mono {y y' : Nat} (h : y ≤ y') :
    daysBeforeYear y ≤ daysBeforeYear y' := by
  induction y' with
  | zero => simp_all
  | succ k ih =>
    rcases Nat.lt_or_ge y (k + 1) with hlt | hge
    · calc daysBeforeYear y ≤ daysBeforeYear k := ih (by omega)
        _ ≤ _ := by simp [daysBeforeYear]
    · have : y = k + 1 := by omega
      subst this; exact le_refl _

theorem dayNumber_lt_of_dateLt {a b : CivilDate} (ha : ValidDate a) (hb : ValidDate b)
    (h : dateLt a b = true) : dayNumber a < dayNumber b := by
  rcases a with ⟨ay, am, ad⟩
  rcases b with ⟨by_, bm, bd⟩
  obtain ⟨a1, a2, a3, a4⟩ := ha
  obtain ⟨b1, b2, b3, b4⟩ := hb
  simp only at a1 a2 a3 a4 b1 b2 b3 b4
  simp only [dateLt, Bool.or_eq_true, Bool.and_eq_true, decide_eq_true_eq, beq_iff_eq] at h
  have hbound : daysBeforeMonth ay am + ad ≤ daysInYear ay :=
    daysBeforeMonth_add_le ay am ad a1 a2 a4
  unfold dayNumber
  simp only
  rcases h with hy | ⟨hy, hm | ⟨hm, hd⟩⟩
  · have h1 : daysBeforeYear (ay + 1) ≤ daysBeforeYear by_ := daysBeforeYear_mono hy
    have h2 : daysBeforeYear (ay + 1) = daysBeforeYear ay + daysInYear ay := rfl
    omega
  · subst hy
    have hmono : daysBeforeMonth ay (am + 1) ≤ daysBeforeMonth ay bm :=
      daysBeforeMonth_mono ay hm
    have hstep : daysBeforeMonth ay (am + 1) =
        daysBeforeMonth ay am + daysInMonth ay am :=
      daysBeforeMonth_succ ay am a1
    omega
  · subst hy
    subst hm
    omega

theorem dateLt_total (a b : CivilDate) :
    dateLt a b = true ∨ a = b ∨ dateLt b a = true := by
  rcases a with ⟨ay, am, ad⟩
  rcases b with ⟨by_, bm, bd⟩
  simp only [dateLt, Bool.or_eq_true, Bool.and_eq_true, decide_eq_true_eq, beq_iff_eq,
    CivilDate.mk.injEq]
  omega

theorem dateLe_iff_dayNumber {a b : CivilDate} (ha : ValidDate a) (hb : ValidDate b) :
    dateLe a b = true ↔ dayNumber a ≤ dayNumber b := by
  constructor
  · intro h
    rcases dateLt_total a b with hlt | heq | hgt
    · exact le_of_lt (dayNumber_lt_of_dateLt ha hb hlt)
    · subst heq; exact le_refl _
    · exfalso
      have := dayNumber_lt_of_dateLt hb ha hgt
      simp only [dateLe, dateLt, Bool.or_eq_true, Bool.and_eq_true, decide_eq_true_eq,
        beq_iff_eq] at h hgt
      omega
  · intro h
    rcases dateLt_total a b with hlt | heq | hgt
    · simp only [dateLe, dateLt, Bool.or_eq_true, Bool.and_eq_true, decide_eq_true_eq,
        beq_iff_eq] at hlt ⊢
      omega
    · subst heq
      simp [dateLe]
    · exfalso
      have := dayNumber_lt_of_dateLt hb ha hgt
      omega

/-! ## ISO date strings (`date.toISOString().split('T')[0]`) -/

/-- A decimal digit character. -/
def digitChar : Nat → Char
  | 0 => '0'
  | 1 => '1'
  | 2 => '2'
  | 3 => '3'
  | 4 => '4'
  | 5 => '5'
  | 6 => '6'
  | 7 => '7'
  | 8 => '8'
  | _ => '9'

/-- Two-digit zero-padded field of an ISO date string. -/
def pad2 (n : Nat) : List Char := [digitChar (n / 10 % 10), digitChar (n % 10)]

/-- Four-digit zero-padded year field of an ISO date string. -/
def pad4 (n : Nat) : List Char :=
  [digitChar (n / 1000 % 10), digitChar (n / 100 % 10), digitChar (n / 10 % 10),
    digitChar (n % 10)]

/-- JS `date.toISOString().split('T')[0]` for a UTC-midnight date: the
`YYYY-MM-DD` string. (For years above 9999 `toISOString` switches to the
expanded `+YYYYYY` form; the dashboard only meets four-digit years.) -/
def isoOfDate (d : CivilDate) : String :=
  if d.year ≤ 9999 then
    ⟨pad4 d.year ++ '-' :: pad2 d.month ++ '-' :: pad2 d.day⟩
  else
    ⟨'+' :: pad2 (d.year / 10000) ++ pad4 (d.year % 10000) ++ '-' :: pad2 d.month ++
      '-' :: pad2 d.day⟩

theorem digitChar_inj {a b : Nat} (ha : a < 10) (hb : b < 10)
    (h : digitChar a = digitChar b) : a = b := by
  interval_cases a <;> interval_cases b <;> simp_all [digitChar]

theorem daysInMonth_le_31 (y m : Nat) : daysInMonth y m ≤ 31 := by
  unfold daysInMonth
  split <;> first | omega | (split <;> omega)

/-- Distinct valid dates with four-digit years render to distinct ISO strings. -/
theorem isoOfDate_inj {a b : CivilDate} (ha : ValidDate a) (hb : ValidDate b)
    (ha9 : a.year ≤ 9999) (hb9 : b.year ≤ 9999)
    (h : isoOfDate a = isoOfDate b) : a = b := by
  rcases a with ⟨ay, am, ad⟩
  rcases b with ⟨by_, bm, bd⟩
  obtain ⟨a1, a2, a3, a4⟩ := ha
  obtain ⟨b1, b2, b3, b4⟩ := hb
  simp only at a1 a2 a3 a4 b1 b2 b3 b4 ha9 hb9
  have had : ad ≤ 99 := by have := daysInMonth_le_31 ay am; omega
  have hbd : bd ≤ 99 := by have := daysInMonth_le_31 by_ bm; omega
  unfold isoOfDate at h
  dsimp only at h
  rw [if_pos ha9, if_pos hb9] at h
  have hdata : pad4 ay ++ '-' :: pad2 am ++ '-' :: pad2 ad =
      pad4 by_ ++ '-' :: pad2 bm ++ '-' :: pad2 bd := congrArg String.data h
  simp only [pad4, pad2, List.cons_append, List.nil_append, List.append_assoc,
    List.cons.injEq, and_true] at hdata
  obtain ⟨e1, e2, e3, e4, -, e5, e6, -, e7, e8⟩ := hdata
  have d1 := digitChar_inj (Nat.mod_lt _ (by omega)) (Nat.mod_lt _ (by omega)) e1
  have d2 := digitChar_inj (Nat.mod_lt _ (by omega)) (Nat.mod_lt _ (by omega)) e2
  have d3 := digitChar_inj (Nat.mod_lt _ (by omega)) (Nat.mod_lt _ (by omega)) e3
  have d4 := digitChar_inj (Nat.mod_lt _ (by omega)) (Nat.mod_lt _ (by omega)) e4
  have d5 := digitChar_inj (Nat.mod_lt _ (by omega)) (Nat.mod_lt _ (by omega)) e5
  have d6 := digitChar_inj (Nat.mod_lt _ (by omega)) (Nat.mod_lt _ (by omega)) e6
  have d7 := digitChar_inj (Nat.mod_lt _ (by omega)) (Nat.mod_lt _ (by omega)) e7
  have d8 := digitChar_inj (Nat.mod_lt _ (by omega)) (Nat.mod_lt _ (by omega)) e8
  simp only [CivilDate.mk.injEq]
  omega

/-! ## `standardizeDate` and the `existingDates` map -/

/-- The three-letter month names understood by `new Date("<month> 01 2024")`.
The browser runtime may accept further spellings; strings outside this table
are modelled as a parse failure (JS `Invalid Date`, making `toISOString`
throw). -/
def monthIndex : String → Option Nat
  | "Jan" => some 0
  | "Feb" => some 1
  | "Mar" => some 2
  | "Apr" => some 3
  | "May" => some 4
  | "Jun" => some 5
  | "Jul" => some 6
  | "Aug" => some 7
  | "Sep" => some 8
  | "Oct" => some 9
  | "Nov" => some 10
  | "Dec" => some 11
  | _ => none

/-- Value of the leading decimal digits of a character list. -/
def leadingDigitsVal (acc : Nat) : List Char → Nat
  | c :: cs => if c.isDigit then leadingDigitsVal (acc * 10 + (c.toNat - 48)) cs else acc
  | [] => acc

/-- JS `parseInt(day)` for the day token of a `"Mon DD"` date (the token cannot
contain `'-'`, so the value is a natural number); `none` models `NaN`. -/
def parseIntNat (s : String) : Option Nat :=
  match s.data with
  | '+' :: c :: cs => if c.isDigit then some (leadingDigitsVal 0 (c :: cs)) else none
  | c :: cs => if c.isDigit then some (leadingDigitsVal 0 (c :: cs)) else none
  | [] => none

/-- JS `new Date(y, monthIndex, d)` (month 0-based, UTC model): day 0 rolls back
to the last day of the previous month, day `k + 1` is `k` days after the first
of the month. -/
def dateFromYMD (y : Nat) (mi : Nat) : Nat → CivilDate
  | 0 => if mi == 0 then ⟨y - 1, 12, 31⟩ else ⟨y, mi, daysInMonth y mi⟩
  | k + 1 => dateSucc^[k] ⟨y, mi + 1, 1⟩

/-- JS `str.split(' ')` on the character list: split at every single space. -/
def splitSpaceAux (acc : List Char) : List Char → List (List Char)
  | [] => [acc.reverse]
  | c :: cs => if c == ' ' then acc.reverse :: splitSpaceAux [] cs else splitSpaceAux (c :: acc) cs

/-- JS `str.split(' ')`. -/
def splitSpace (s : String) : List String :=
  (splitSpaceAux [] s.data).map List.asString

/-- `standardizeDate` from `fillMissingDates`: a string containing `'-'` is
returned unchanged, otherwise it is parsed as `"Mon DD"` and rebuilt for the
current year. `currentYear` stands for `new Date().getFullYear()`; `none`
models the places where the JS would throw. -/
def standardizeDate (currentYear : Nat) (dateStr : String) : Option String :=
  if dateStr.data.contains '-' then some dateStr
  else
    match splitSpace dateStr with
    | month :: day :: _ =>
      match monthIndex month, parseIntNat day with
      | some mi, some d => some (isoOfDate (dateFromYMD currentYear mi d))
      | _, _ => none
    | _ => none

/-- One step of the `existingDates` map construction:
`[standardizeDate(item.date), {...item, date: standardizedDate}]`. `none` where
the JS would throw (a non-string `date` field or an unparsable date). -/
def normalizeRow (currentYear : Nat) (item : Obj) : Option (String × Obj) :=
  match objGet item "date" with
  | some (Val.str s) =>
    match standardizeDate currentYear s with
    | some d => some (d, objSet item "date" (Val.str d))
    | none => none
  | _ => none

/-- The `data.map(...)` building the `existingDates` entries; a throw while
normalizing any row aborts the whole call. -/
def normalizeRows (currentYear : Nat) : List Obj → Option (List (String × Obj))
  | [] => some []
  | item :: rest =>
    match normalizeRow currentYear item, normalizeRows currentYear rest with
    | some p, some ps => some (p :: ps)
    | _, _ => none

/-- `Map.get` for a map built with `new Map(entries)`: a later entry with the
same key overwrites an earlier one, so lookup returns the value of the last
entry carrying the key. -/
def mapGet (entries : List (String × Obj)) (k : String) : Option Obj :=
  (entries.reverse.find? (fun p => p.1 == k)).map (·.2)

/-- The synthesized zero row of `fillMissingDates`: `date`, `api_requests: 0`,
`total_tokens: 0`, then `0` for every category whose field is still falsy. -/
def emptyEntry (dateStr : String) (categories : List String) : Obj :=
  categories.foldl
    (fun e category =>
      match objGet e category with
      | some v => if v.truthy then e else objSet e category (Val.num 0)
      | none => objSet e category (Val.num 0))
    [("date", Val.str dateStr), ("api_requests", Val.num 0), ("total_tokens", Val.num 0)]

/-- The body of the `while (currentDate <= endDate)` loop, driven by fuel. -/
def fillLoop (existing : List (String × Obj)) (categories : List String)
    (endDate : CivilDate) : Nat → CivilDate → List Obj
  | 0, _ => []
  | n + 1, cur =>
    if dateLe cur endDate then
      (match mapGet existing (isoOfDate cur) with
        | some r => r
        | none => emptyEntry (isoOfDate cur) categories) ::
        fillLoop existing categories endDate n (dateSucc cur)
    else []

/-- `fillMissingDates(data, startDate, endDate, categories)`. The loop fuel
`dayNumber endDate + 1 - dayNumber startDate` is exactly the number of
iterations of the source's `while` loop for valid dates (`fillLoop_spec`
below), so the fueled loop and the source loop agree. `none` models the run
where normalizing some row's date throws. -/
def fillMissingDates (currentYear : Nat) (data : List Obj) (startDate endDate : CivilDate)
    (categories : List String) : Option (List Obj) :=
  (normalizeRows currentYear data).map fun existingDates =>
    fillLoop existingDates categories endDate
      (dayNumber endDate + 1 - dayNumber startDate) startDate

/-- The `n` consecutive civil days starting at `d`. -/
def dateRangeList : Nat → CivilDate → List CivilDate
  | 0, _ => []
  | n + 1, d => d :: dateRangeList n (dateSucc d)

/-- The row `fillMissingDates` emits for calendar day `d`. -/
def emittedRow (existing : List (String × Obj)) (categories : List String)
    (d : CivilDate) : Obj :=
  match mapGet existing (isoOfDate d) with
  | some r => r
  | none => emptyEntry (isoOfDate d) categories

theorem fillLoop_spec (existing : List (String × Obj)) (categories : List String)
    {endDate : CivilDate} (he : ValidDate endDate) :
    ∀ (n : Nat) (cur : CivilDate), ValidDate cur →
      n = dayNumber endDate + 1 - dayNumber cur →
      fillLoop existing categories endDate n cur =
        (dateRangeList n cur).map (emittedRow existing categories) := by
  intro n
  induction n with
  | zero => intro cur _ _; rfl
  | succ k ih =>
    intro cur hcur hk
    have hle : dayNumber cur ≤ dayNumber endDate := by omega
    have hcond : dateLe cur endDate = true := (dateLe_iff_dayNumber hcur he).mpr hle
    have hnext : k = dayNumber endDate + 1 - dayNumber (dateSucc cur) := by
      rw [dayNumber_dateSucc hcur]; omega
    simp only [fillLoop, hcond, if_pos, dateRangeList, List.map_cons]
    rw [ih (dateSucc cur) (validDate_dateSucc hcur) hnext]
    rfl

theorem dateRangeList_length (n : Nat) (d : CivilDate) :
    (dateRangeList n d).length = n := by
  induction n generalizing d with
  | zero => rfl
  | succ k ih => simp [dateRangeList, ih]

theorem mem_dateRangeList {n : Nat} {s b : CivilDate} (hs : ValidDate s)
    (h : b ∈ dateRangeList n s) :
    ValidDate b ∧ dayNumber s ≤ dayNumber b ∧ dayNumber b < dayNumber s + n := by
  induction n generalizing s with
  | zero => simp [dateRangeList] at h
  | succ k ih =>
    simp only [dateRangeList, List.mem_cons] at h
    rcases h with rfl | h
    · exact ⟨hs, le_refl _, by omega⟩
    · have hsucc := validDate_dateSucc hs
      have := ih hsucc h
      rw [dayNumber_dateSucc hs] at this
      exact ⟨this.1, by omega, by omega⟩

theorem dateRangeList_pairwise_lt {s : CivilDate} (hs : ValidDate s) (n : Nat) :
    (dateRangeList n s).Pairwise (fun a b => dateLt a b = true) := by
  induction n generalizing s with
  | zero => exact List.Pairwise.nil
  | succ k ih =>
    refine List.Pairwise.cons ?_ (ih (validDate_dateSucc hs))
    intro b hb
    obtain ⟨hbv, hble, _⟩ := mem_dateRangeList (validDate_dateSucc hs) hb
    rw [dayNumber_dateSucc hs] at hble
    rcases dateLt_total s b with hlt | heq | hgt
    · exact hlt
    · exfalso; subst heq; omega
    · exfalso
      have := dayNumber_lt_of_dateLt hbv hs hgt
      omega

theorem dateRangeList_mem_iff {s e : CivilDate} (hs : ValidDate s) (he : ValidDate e)
    (hse : dateLe s e = true) (d : CivilDate) :
    d ∈ dateRangeList (daysBetween s e + 1) s ↔
      (ValidDate d ∧ dateLe s d = true ∧ dateLe d e = true) := by
  have hle : dayNumber s ≤ dayNumber e := (dateLe_iff_dayNumber hs he).mp hse
  constructor
  · intro h
    obtain ⟨hv, h1, h2⟩ := mem_dateRangeList hs h
    refine ⟨hv, (dateLe_iff_dayNumber hs hv).mpr h1, (dateLe_iff_dayNumber hv he).mpr ?_⟩
    unfold daysBetween at h2
    omega
  · rintro ⟨hv, h1, h2⟩
    have hd1 : dayNumber s ≤ dayNumber d := (dateLe_iff_dayNumber hs hv).mp h1
    have hd2 : dayNumber d ≤ dayNumber e := (dateLe_iff_dayNumber hv he).mp h2
    clear h1 h2 hse
    have key : ∀ (n : Nat) (c : CivilDate), ValidDate c →
        dayNumber c ≤ dayNumber d → dayNumber d < dayNumber c + n →
        d ∈ dateRangeList n c := by
      intro n
      induction n with
      | zero => intro c _ _ _; omega
      | succ k ih =>
        intro c hc hc1 hc2
        rcases Nat.eq_or_lt_of_le hc1 with heq | hlt
        · have : c = d := by
            rcases dateLt_total c d with hlt' | heq' | hgt'
            · exact absurd (dayNumber_lt_of_dateLt hc hv hlt') (by omega)
            · exact heq'
            · exact absurd (dayNumber_lt_of_dateLt hv hc hgt') (by omega)
          subst this
          exact List.mem_cons_self _ _
        · refine List.mem_cons_of_mem _ (ih (dateSucc c) (validDate_dateSucc hc) ?_ ?_)
          · rw [dayNumber_dateSucc hc]; omega
          · rw [dayNumber_dateSucc hc]; omega
    exact key _ s hs hd1 (by unfold daysBetween; omega)

theorem ne_of_dateLt {a b : CivilDate} (h : dateLt a b = true) : a ≠ b := by
  intro heq
  subst heq
  simp only [dateLt, Bool.or_eq_true, Bool.and_eq_true, decide_eq_true_eq, beq_iff_eq] at h
  omega

theorem year_le_of_dayNumber_le {a b : CivilDate} (ha : ValidDate a) (hb : ValidDate b)
    (h : dayNumber a ≤ dayNumber b) : a.year ≤ b.year := by
  by_contra hy
  have hlt : dateLt b a = true := by
    simp only [dateLt, Bool.or_eq_true, Bool.and_eq_true, decide_eq_true_eq, beq_iff_eq]
    omega
  have := dayNumber_lt_of_dateLt hb ha hlt
  omega

theorem validDate_iterate {s : CivilDate} (hs : ValidDate s) (i : Nat) :
    ValidDate (dateSucc^[i] s) := by
  induction i generalizing s with
  | zero => exact hs
  | succ k ih =>
    rw [Function.iterate_succ_apply]
    exact ih (validDate_dateSucc hs)

theorem dayNumber_iterate {s : CivilDate} (hs : ValidDate s) (i : Nat) :
    dayNumber (dateSucc^[i] s) = dayNumber s + i := by
  induction i generalizing s with
  | zero => simp
  | succ k ih =>
    rw [Function.iterate_succ_apply, ih (validDate_dateSucc hs), dayNumber_dateSucc hs]
    omega

theorem dayNumber_inj {a b : CivilDate} (ha : ValidDate a) (hb : ValidDate b)
    (h : dayNumber a = dayNumber b) : a = b := by
  rcases dateLt_total a b with hlt | heq | hgt
  · exact absurd (dayNumber_lt_of_dateLt ha hb hlt) (by omega)
  · exact heq
  · exact absurd (dayNumber_lt_of_dateLt hb ha hgt) (by omega)

theorem dateRangeList_get? {n : Nat} (s : CivilDate) {i : Nat} (h : i < n) :
    (dateRangeList n s).get? i = some (dateSucc^[i] s) := by
  induction n generalizing s i with
  | zero => omega
  | succ k ih =>
    match i with
    | 0 => rfl
    | j + 1 =>
      show (dateRangeList k (dateSucc s)).get? j = _
      rw [ih (dateSucc s) (by omega)]
      rw [Function.iterate_succ_apply]

/-! ## Lookup lemmas for the `existingDates` map -/

theorem find?_eq_head?_filter (p : α → Bool) (l : List α) :
    l.find? p = (l.filter p).head? := by
  induction l with
  | nil => rfl
  | cons a as ih =>
    by_cases h : p a
    · rw [List.find?_cons_of_pos _ h, List.filter_cons_of_pos h]
      rfl
    · rw [List.find?_cons_of_neg _ h, List.filter_cons_of_neg h]
      exact ih

theorem mapGet_eq_filter_getLast (l : List (String × Obj)) (key : String) :
    mapGet l key = ((l.filter (fun p => p.1 == key)).getLast?).map Prod.snd := by
  unfold mapGet
  rw [find?_eq_head?_filter, List.filter_reverse, List.head?_reverse]

theorem mapGet_eq_none {l : List (String × Obj)} {key : String}
    (h : key ∉ l.map Prod.fst) : mapGet l key = none := by
  unfold mapGet
  rw [List.find?_eq_none.mpr]
  · rfl
  · intro p hp
    simp only [beq_iff_eq]
    intro heq
    exact h (List.mem_map.mpr ⟨p, List.mem_reverse.mp hp, heq⟩)

theorem mapGet_mem {l : List (String × Obj)} {key : String} {v : Obj}
    (h : mapGet l key = some v) : (key, v) ∈ l := by
  unfold mapGet at h
  rcases hf : l.reverse.find? (fun p => p.1 == key) with _ | q
  · rw [hf] at h
    exact Option.noConfusion h
  · rw [hf] at h
    rcases q with ⟨qk, qv⟩
    have h2 : qv = v := by simpa using h
    have hkey : qk = key := by simpa using List.find?_some hf
    have hqmem : (qk, qv) ∈ l.reverse := List.mem_of_find?_eq_some hf
    subst h2
    subst hkey
    exact List.mem_reverse.mp hqmem

/-- With duplicate-free keys, the unique entry carrying a key is the lookup
result. -/
theorem filter_eq_single_of_nodup {l : List (String × Obj)} {key : String} {v : Obj}
    (hnd : (l.map Prod.fst).Nodup) (hmem : (key, v) ∈ l) :
    l.filter (fun p => p.1 == key) = [(key, v)] := by
  induction l with
  | nil => simp at hmem
  | cons p rest ih =>
    simp only [List.map_cons, List.nodup_cons] at hnd
    rcases List.mem_cons.mp hmem with rfl | hmem'
    · rw [List.filter_cons_of_pos (by simp)]
      rw [List.filter_eq_nil_iff.mpr]
      intro q hq
      simp only [beq_iff_eq]
      intro heq
      exact hnd.1 (List.mem_map.mpr ⟨q, hq, heq⟩)
    · have hne : p.1 ≠ key := by
        intro heq
        exact hnd.1 (heq ▸ List.mem_map.mpr ⟨(key, v), hmem', rfl⟩)
      rw [List.filter_cons_of_neg (by simp [hne])]
      exact ih hnd.2 hmem'

theorem mapGet_of_nodup {l : List (String × Obj)} {key : String} {v : Obj}
    (hnd : (l.map Prod.fst).Nodup) (hmem : (key, v) ∈ l) :
    mapGet l key = some v := by
  rw [mapGet_eq_filter_getLast, filter_eq_single_of_nodup hnd hmem]
  rfl

/-- Every value in the `existingDates` map carries its key as its `date` field. -/
theorem objGet_objSet_self {α : Type} (o : List (String × α)) (k : String) (v : α) :
    objGet (objSet o k v) k = some v := by
  induction o with
  | nil => simp [objSet, objGet]
  | cons p rest ih =>
    rcases p with ⟨k', v'⟩
    by_cases hk : k' = k
    · subst hk
      simp [objSet, objGet]
    · simp only [objSet, beq_iff_eq, if_neg hk]
      simpa [objGet, hk] using ih

theorem normalizeRow_date_field {currentYear : Nat} {item : Obj} {key : String} {row : Obj}
    (h : normalizeRow currentYear item = some (key, row)) :
    objGet row "date" = some (Val.str key) := by
  unfold normalizeRow at h
  rcases hd : objGet item "date" with _ | v
  · simp only [hd] at h
    exact Option.noConfusion h
  · simp only [hd] at h
    rcases v with s | n
    · rcases hs : standardizeDate currentYear s with _ | d
      · simp only [hs] at h
        exact Option.noConfusion h
      · simp only [hs, Option.some.injEq, Prod.mk.injEq] at h
        obtain ⟨hk, hr⟩ := h
        subst hk; subst hr
        exact objGet_objSet_self item "date" (Val.str d)
    · simp at h

theorem normalizeRows_date_field {currentYear : Nat} {data : List Obj}
    {existing : List (String × Obj)}
    (h : normalizeRows currentYear data = some existing) :
    ∀ p ∈ existing, objGet p.2 "date" = some (Val.str p.1) := by
  induction data generalizing existing with
  | nil =>
    simp only [normalizeRows, Option.some.injEq] at h
    subst h; intro p hp; simp at hp
  | cons item rest ih =>
    unfold normalizeRows at h
    rcases hn : normalizeRow currentYear item with _ | q
    · simp only [hn] at h
      exact Option.noConfusion h
    · simp only [hn] at h
      rcases hr : normalizeRows currentYear rest with _ | qs
      · simp only [hr] at h
        exact Option.noConfusion h
      · simp only [hr, Option.some.injEq] at h
        subst h
        intro p hp
        rcases List.mem_cons.mp hp with rfl | hp'
        · rcases p with ⟨qk, qv⟩
          exact normalizeRow_date_field hn
        · exact ih hr p hp'

theorem objGet_objSet_ne {α : Type} (o : List (String × α)) (k k' : String) (v : α)
    (h : k ≠ k') : objGet (objSet o k v) k' = objGet o k' := by
  induction o with
  | nil =>
    show objGet [(k, v)] k' = objGet [] k'
    unfold objGet
    rw [List.find?_cons_of_neg _ (by simp [h])]
  | cons p rest ih =>
    rcases p with ⟨pk, pv⟩
    by_cases hpk : pk = k
    · subst hpk
      show objGet (if (pk == pk) = true then (pk, v) :: rest else
        (pk, pv) :: objSet rest pk v) k' = objGet ((pk, pv) :: rest) k'
      rw [if_pos (by simp)]
      unfold objGet
      rw [List.find?_cons_of_neg _ (by simp [h]), List.find?_cons_of_neg _ (by simp [h])]
    · show objGet (if (pk == k) = true then (k, v) :: rest else
        (pk, pv) :: objSet rest k v) k' = objGet ((pk, pv) :: rest) k'
      rw [if_neg (by simp [hpk])]
      by_cases hpk' : pk = k'
      · subst hpk'
        unfold objGet
        rw [List.find?_cons_of_pos _ (by simp), List.find?_cons_of_pos _ (by simp)]
      · unfold objGet
        rw [List.find?_cons_of_neg _ (by simp [hpk']), List.find?_cons_of_neg _ (by simp [hpk'])]
        exact ih

/-- The synthesized zero row keeps the day's date in its `date` field. -/
theorem emptyEntry_date_field (dateStr : String) (categories : List String)
    (hne : dateStr ≠ "") :
    objGet (emptyEntry dateStr categories) "date" = some (Val.str dateStr) := by
  unfold emptyEntry
  have base : objGet [("date", Val.str dateStr), ("api_requests", Val.num 0),
      ("total_tokens", Val.num 0)] "date" = some (Val.str dateStr) := by
    simp [objGet]
  generalize hstart : ([("date", Val.str dateStr), ("api_requests", Val.num 0),
      ("total_tokens", Val.num 0)] : Obj) = start
  rw [hstart] at base
  clear hstart
  induction categories generalizing start with
  | nil => exact base
  | cons c cs ih =>
    simp only [List.foldl_cons]
    apply ih
    rcases hc : objGet start c with _ | v
    · by_cases hcd : c = "date"
      · subst hcd; rw [hc] at base; simp at base
      · show objGet (objSet start c (Val.num 0)) "date" = some (Val.str dateStr)
        rw [objGet_objSet_ne start c "date" (Val.num 0) hcd]
        exact base
    · show objGet (if v.truthy = true then start else objSet start c (Val.num 0)) "date" =
        some (Val.str dateStr)
      split
      · exact base
      · by_cases hcd : c = "date"
        · subst hcd
          rw [hc] at base
          simp only [Option.some.injEq] at base
          subst base
          rename_i hv
          simp [Val.truthy, hne] at hv
        · rw [objGet_objSet_ne start c "date" (Val.num 0) hcd]
          exact base

theorem isoOfDate_ne_empty (d : CivilDate) : isoOfDate d ≠ "" := by
  unfold isoOfDate
  split <;> simp [pad4, pad2, String.ext_iff]

/-- Central characterization of `fillMissingDates` on valid dates: the result is
the per-day emitted row mapped over the day range. -/
theorem fillMissingDates_eq_map {currentYear : Nat} {data : List Obj} {s e : CivilDate}
    {categories : List String} (hs : ValidDate s) (he : ValidDate e)
    (hse : dateLe s e = true) {existing : List (String × Obj)}
    (hnorm : normalizeRows currentYear data = some existing) :
    fillMissingDates currentYear data s e categories =
      some ((dateRangeList (daysBetween s e + 1) s).map (emittedRow existing categories)) := by
  unfold fillMissingDates
  rw [hnorm]
  have hle : dayNumber s ≤ dayNumber e := (dateLe_iff_dayNumber hs he).mp hse
  have hfuel : dayNumber e + 1 - dayNumber s = daysBetween s e + 1 := by
    unfold daysBetween; omega
  show some (fillLoop existing categories e (dayNumber e + 1 - dayNumber s) s) =
    some ((dateRangeList (daysBetween s e + 1) s).map (emittedRow existing categories))
  rw [hfuel]
  rw [fillLoop_spec existing categories he (daysBetween s e + 1) s hs
    (by unfold daysBetween; omega)]

theorem dateRangeList_nodup {s : CivilDate} (hs : ValidDate s) (n : Nat) :
    (dateRangeList n s).Nodup :=
  (dateRangeList_pairwise_lt hs n).imp (fun h => ne_of_dateLt h)

theorem mem_range_year_le {s e d : CivilDate} (hs : ValidDate s) (he : ValidDate e)
    (hse : dateLe s e = true) (hd : d ∈ dateRangeList (daysBetween s e + 1) s) :
    ValidDate d ∧ d.year ≤ e.year := by
  obtain ⟨hv, h1, h2⟩ := mem_dateRangeList hs hd
  have hle : dayNumber s ≤ dayNumber e := (dateLe_iff_dayNumber hs he).mp hse
  have hdn : dayNumber d ≤ dayNumber e := by unfold daysBetween at h2; omega
  exact ⟨hv, year_le_of_dayNumber_le hv he hdn⟩

theorem dateRangeList_map_iso_nodup {s e : CivilDate} (hs : ValidDate s) (he : ValidDate e)
    (hse : dateLe s e = true) (he9 : e.year ≤ 9999) :
    ((dateRangeList (daysBetween s e + 1) s).map isoOfDate).Nodup := by
  refine (dateRangeList_nodup hs _).map_on ?_
  intro a ha b hb hiso
  obtain ⟨hav, hay⟩ := mem_range_year_le hs he hse ha
  obtain ⟨hbv, hby⟩ := mem_range_year_le hs he hse hb
  exact isoOfDate_inj hav hbv (by omega) (by omega) hiso

/-- C1: for valid dates `start_date ≤ end_date` and rows whose dates all
normalize, `fillMissingDates` emits exactly the per-day rows over the interval:
one row per calendar day (the days of the range enumerate the interval without
repetition, in strictly ascending date order), each day's row being the stored
normalized row for that day when the map has one and the synthesized zero row
otherwise; rows whose normalized date lies outside the interval never appear,
and the output length is `days_between + 1`. -/
theorem fillMissingDates_covers_range
    (currentYear : Nat) (data : List Obj) (s e : CivilDate) (categories : List String)
    (existing : List (String × Obj))
    (hs : ValidDate s) (he : ValidDate e) (hse : dateLe s e = true)
    (hnorm : normalizeRows currentYear data = some existing) :
    fillMissingDates currentYear data s e categories =
      some ((dateRangeList (daysBetween s e + 1) s).map (emittedRow existing categories)) ∧
    ((dateRangeList (daysBetween s e + 1) s).map (emittedRow existing categories)).length =
      daysBetween s e + 1 ∧
    (dateRangeList (daysBetween s e + 1) s).Pairwise (fun a b => dateLt a b = true) ∧
    (∀ d, d ∈ dateRangeList (daysBetween s e + 1) s ↔
      ValidDate d ∧ dateLe s d = true ∧ dateLe d e = true) := by
  refine ⟨fillMissingDates_eq_map hs he hse hnorm, ?_, ?_, ?_⟩
  · rw [List.length_map, dateRangeList_length]
  · exact dateRangeList_pairwise_lt hs _
  · exact dateRangeList_mem_iff hs he hse

/-- C1 witness: a concrete three-day interval with one existing row. -/
theorem fillMissingDates_covers_range_witness :
    fillMissingDates 1 [[("date", Val.str "0001-01-02"), ("x", Val.num 7)]]
        ⟨1, 1, 1⟩ ⟨1, 1, 3⟩ ["m"] =
      some [[("date", Val.str "0001-01-01"), ("api_requests", Val.num 0),
              ("total_tokens", Val.num 0), ("m", Val.num 0)],
            [("date", Val.str "0001-01-02"), ("x", Val.num 7)],
            [("date", Val.str "0001-01-03"), ("api_requests", Val.num 0),
              ("total_tokens", Val.num 0), ("m", Val.num 0)]] := by
  have h := fillMissingDates_covers_range 1
    [[("date", Val.str "0001-01-02"), ("x", Val.num 7)]] ⟨1, 1, 1⟩ ⟨1, 1, 3⟩ ["m"]
    [("0001-01-02", [("date", Val.str "0001-01-02"), ("x", Val.num 7)])]
    (by decide) (by decide) (by decide) (by decide)
  exact h.1.trans (by decide)

/-- C8 counterexample: a dense input (exactly one row per day of the interval,
with already-normalized dates) listed in descending date order is re-emitted in
ascending order, so the output is not the input list up to date normalization. -/
theorem fillMissingDates_dense_not_identity :
    (normalizeRows 1
        [[("date", Val.str "0001-01-02"), ("k", Val.num 2)],
         [("date", Val.str "0001-01-01"), ("k", Val.num 1)]] =
      some [("0001-01-02", [("date", Val.str "0001-01-02"), ("k", Val.num 2)]),
            ("0001-01-01", [("date", Val.str "0001-01-01"), ("k", Val.num 1)])]) ∧
    fillMissingDates 1
        [[("date", Val.str "0001-01-02"), ("k", Val.num 2)],
         [("date", Val.str "0001-01-01"), ("k", Val.num 1)]]
        ⟨1, 1, 1⟩ ⟨1, 1, 2⟩ [] ≠
      some [[("date", Val.str "0001-01-02"), ("k", Val.num 2)],
            [("date", Val.str "0001-01-01"), ("k", Val.num 1)]] := by
  decide

/-- C8 (amended): on a dense input — exactly one row per calendar day of the
interval, listed in ascending date order, none outside the interval —
`fillMissingDates` returns the input rows unchanged except for date
normalization. -/
theorem fillMissingDates_dense_identity
    (currentYear : Nat) (data : List Obj) (s e : CivilDate) (categories : List String)
    (existing : List (String × Obj))
    (hs : ValidDate s) (he : ValidDate e) (hse : dateLe s e = true) (he9 : e.year ≤ 9999)
    (hnorm : normalizeRows currentYear data = some existing)
    (hkeys : existing.map Prod.fst =
      (dateRangeList (daysBetween s e + 1) s).map isoOfDate) :
    fillMissingDates currentYear data s e categories = some (existing.map Prod.snd) := by
  rw [fillMissingDates_eq_map hs he hse hnorm]
  congr 1
  have hnd : (existing.map Prod.fst).Nodup := by
    rw [hkeys]; exact dateRangeList_map_iso_nodup hs he hse he9
  have hlen : existing.length = daysBetween s e + 1 := by
    have := congrArg List.length hkeys
    simpa [dateRangeList_length] using this
  apply List.ext_getElem
  · simp [dateRangeList_length, hlen]
  · intro i h1 h2
    have hi : i < daysBetween s e + 1 := by
      simpa [dateRangeList_length] using h1
    have hie : i < existing.length := by omega
    have hrange : i < (dateRangeList (daysBetween s e + 1) s).length := by
      simpa [dateRangeList_length] using hi
    have hkey_i : (existing[i]).1 =
        isoOfDate ((dateRangeList (daysBetween s e + 1) s)[i]) := by
      have h3 := congrArg (fun l => l[i]?) hkeys
      simp only [List.getElem?_map] at h3
      rw [List.getElem?_eq_getElem hie, List.getElem?_eq_getElem hrange] at h3
      simpa using h3
    rw [List.getElem_map, List.getElem_map]
    unfold emittedRow
    rw [← hkey_i]
    have hmem : ((existing[i]).1, (existing[i]).2) ∈ existing := by
      rw [Prod.mk.eta]
      exact List.getElem_mem hie
    rw [mapGet_of_nodup hnd hmem]

/-- C8 witness: a concrete dense ascending input is returned unchanged. -/
theorem fillMissingDates_dense_identity_witness :
    fillMissingDates 1
        [[("date", Val.str "0001-01-01"), ("k", Val.num 1)],
         [("date", Val.str "0001-01-02"), ("k", Val.num 2)]]
        ⟨1, 1, 1⟩ ⟨1, 1, 2⟩ ["m"] =
      some [[("date", Val.str "0001-01-01"), ("k", Val.num 1)],
            [("date", Val.str "0001-01-02"), ("k", Val.num 2)]] := by
  have h := fillMissingDates_dense_identity 1
    [[("date", Val.str "0001-01-01"), ("k", Val.num 1)],
     [("date", Val.str "0001-01-02"), ("k", Val.num 2)]]
    ⟨1, 1, 1⟩ ⟨1, 1, 2⟩ ["m"]
    [("0001-01-01", [("date", Val.str "0001-01-01"), ("k", Val.num 1)]),
     ("0001-01-02", [("date", Val.str "0001-01-02"), ("k", Val.num 2)])]
    (by decide) (by decide) (by decide) (by decide) (by decide) (by decide)
  exact h.trans (by decide)

/-- Every output row of `fillMissingDates` carries its own day's ISO date in its
`date` field — emitted rows because normalization stored it there, synthesized
rows by construction. -/
theorem emittedRow_date_field {currentYear : Nat} {data : List Obj}
    {existing : List (String × Obj)}
    (hnorm : normalizeRows currentYear data = some existing)
    (categories : List String) (dj : CivilDate) :
    objGet (emittedRow existing categories dj) "date" =
      some (Val.str (isoOfDate dj)) := by
  unfold emittedRow
  rcases hm : mapGet existing (isoOfDate dj) with _ | r
  · simp only [hm]
    exact emptyEntry_date_field _ _ (isoOfDate_ne_empty dj)
  · simp only [hm]
    exact normalizeRows_date_field hnorm _ (mapGet_mem hm)

/-- C10: when two or more input rows normalize to the same calendar day inside
the interval, the output's single entry for that day is the last such row in
input order; no other output entry carries that date, so the earlier duplicate
rows are discarded. -/
theorem fillMissingDates_last_duplicate_wins
    (currentYear : Nat) (data : List Obj) (s e : CivilDate) (categories : List String)
    (existing : List (String × Obj)) (d : CivilDate) (out : List Obj)
    (hs : ValidDate s) (he : ValidDate e) (hse : dateLe s e = true) (he9 : e.year ≤ 9999)
    (hnorm : normalizeRows currentYear data = some existing)
    (hd : d ∈ dateRangeList (daysBetween s e + 1) s)
    (hdup : 2 ≤ (existing.filter (fun p => p.1 == isoOfDate d)).length)
    (hout : fillMissingDates currentYear data s e categories = some out) :
    out.get? (dayNumber d - dayNumber s) =
      ((existing.filter (fun p => p.1 == isoOfDate d)).getLast?).map Prod.snd ∧
    (∀ (j : Nat) (hj : j < out.length), j ≠ dayNumber d - dayNumber s →
      objGet (out.get ⟨j, hj⟩) "date" ≠ some (Val.str (isoOfDate d))) := by
  have h0 : out =
      (dateRangeList (daysBetween s e + 1) s).map (emittedRow existing categories) :=
    Option.some.inj (hout.symm.trans (fillMissingDates_eq_map hs he hse hnorm))
  subst h0
  obtain ⟨hdv, hd1, hd2⟩ := mem_dateRangeList hs hd
  have hk : dayNumber d - dayNumber s < daysBetween s e + 1 := by omega
  have hdk : (dateRangeList (daysBetween s e + 1) s).get? (dayNumber d - dayNumber s) =
      some (dateSucc^[dayNumber d - dayNumber s] s) := dateRangeList_get? s hk
  have hiter : dateSucc^[dayNumber d - dayNumber s] s = d := by
    apply dayNumber_inj (validDate_iterate hs _) hdv
    rw [dayNumber_iterate hs]
    omega
  have hd9 : d.year ≤ 9999 := by
    have := (mem_range_year_le hs he hse hd).2
    omega
  constructor
  · rw [List.get?_map, hdk, hiter]
    show some (emittedRow existing categories d) = _
    unfold emittedRow
    rw [mapGet_eq_filter_getLast]
    rcases hlast : (existing.filter (fun p => p.1 == isoOfDate d)).getLast? with _ | q
    · exfalso
      rw [List.getLast?_eq_none_iff] at hlast
      rw [hlast] at hdup
      simp at hdup
    · rw [hlast]
      rfl
  · intro j hj hjk
    have hjn : j < daysBetween s e + 1 := by
      simpa [dateRangeList_length] using hj
    have hrj : j < (dateRangeList (daysBetween s e + 1) s).length := by
      simpa [dateRangeList_length] using hjn
    have hdj : (dateRangeList (daysBetween s e + 1) s).get ⟨j, hrj⟩ = dateSucc^[j] s := by
      have h5 := dateRangeList_get? s hjn
      rw [List.get?_eq_get hrj] at h5
      exact Option.some.inj h5
    rw [List.get_map, hdj]
    rw [emittedRow_date_field hnorm]
    intro hcontra
    simp only [Option.some.injEq, Val.str.injEq] at hcontra
    have hjv : ValidDate (dateSucc^[j] s) := validDate_iterate hs j
    have hj9 : (dateSucc^[j] s).year ≤ 9999 := by
      have hmem : dateSucc^[j] s ∈ dateRangeList (daysBetween s e + 1) s := by
        rw [← hdj]
        exact List.get_mem _ _ _
      have := (mem_range_year_le hs he hse hmem).2
      omega
    have heqd : dateSucc^[j] s = d := isoOfDate_inj hjv hdv hj9 hd9 hcontra
    have hnum := dayNumber_iterate hs j
    rw [heqd] at hnum
    omega

/-- C10 witness: two rows for the same day — the later row is kept at that
day's position. -/
theorem fillMissingDates_last_duplicate_wins_witness :
    ([[("date", Val.str "0001-01-01"), ("api_requests", Val.num 0), ("total_tokens", Val.num 0)],
      [("date", Val.str "0001-01-02"), ("k", Val.num 2)],
      [("date", Val.str "0001-01-03"), ("api_requests", Val.num 0), ("total_tokens", Val.num 0)]]
        : List Obj).get? (dayNumber ⟨1, 1, 2⟩ - dayNumber ⟨1, 1, 1⟩) =
      ((([("0001-01-02", [("date", Val.str "0001-01-02"), ("k", Val.num 1)]),
          ("0001-01-02", [("date", Val.str "0001-01-02"), ("k", Val.num 2)])]
          : List (String × Obj)).filter
        (fun p => p.1 == isoOfDate ⟨1, 1, 2⟩)).getLast?).map Prod.snd :=
  (fillMissingDates_last_duplicate_wins 1
    [[("date", Val.str "0001-01-02"), ("k", Val.num 1)],
     [("date", Val.str "0001-01-02"), ("k", Val.num 2)]]
    ⟨1, 1, 1⟩ ⟨1, 1, 3⟩ []
    [("0001-01-02", [("date", Val.str "0001-01-02"), ("k", Val.num 1)]),
     ("0001-01-02", [("date", Val.str "0001-01-02"), ("k", Val.num 2)])]
    ⟨1, 1, 2⟩
    [[("date", Val.str "0001-01-01"), ("api_requests", Val.num 0), ("total_tokens", Val.num 0)],
     [("date", Val.str "0001-01-02"), ("k", Val.num 2)],
     [("date", Val.str "0001-01-03"), ("api_requests", Val.num 0), ("total_tokens", Val.num 0)]]
    (by decide) (by decide) (by decide) (by decide) (by decide) (by decide) (by decide)
    (by decide)).1

/-! ## C2: `deduplicatedRequest` and the in-flight request cache -/

/-- State of the `requestCache` ref, with the bookkeeping needed to state the
deduplication invariants: `calls` logs every factory invocation in order as a
key / promise-id pair, `settled` the promises whose request has settled. -/
structure DedupState where
  cache : List (String × Nat)
  nextId : Nat
  calls : List (String × Nat)
  settled : List Nat
  deriving DecidableEq, Repr

/-- The freshly created cache (`useRef(new Map())`). -/
def emptyDedup : DedupState := ⟨[], 0, [], []⟩

/-- `Map.delete(key)`. -/
def cacheDelete (c : List (String × Nat)) (k : String) : List (String × Nat) :=
  c.filter (fun p => !(p.1 == k))

/-- `deduplicatedRequest(key, request)`: the promise id handed to the caller and
the successor state. A cache hit returns the stored pending promise and does
not invoke the factory; otherwise the factory runs (appended to `calls`), its
promise is stored under `key`, and its `finally` handler (`settleRequest`) will
delete the entry when it settles. (The `async` wrapper is transparent: callers
sharing the cached promise observe its value or error.) -/
def deduplicatedRequest (s : DedupState) (key : String) : Nat × DedupState :=
  match objGet s.cache key with
  | some p => (p, s)
  | none =>
    (s.nextId,
      { cache := objSet s.cache key s.nextId
        nextId := s.nextId + 1
        calls := s.calls ++ [(key, s.nextId)]
        settled := s.settled })

/-- The promise created for `key` settles — fulfilled or rejected alike: its
`.finally(() => requestCache.current.delete(key))` handler removes the entry. -/
def settleRequest (s : DedupState) (key : String) (p : Nat) : DedupState :=
  { s with settled := s.settled ++ [p], cache := cacheDelete s.cache key }

inductive DedupEvent where
  | call (key : String)
  | settle (key : String) (p : Nat)
  deriving DecidableEq, Repr

def dedupStep (s : DedupState) : DedupEvent → DedupState
  | .call k => (deduplicatedRequest s k).2
  | .settle k p => settleRequest s k p

/-- An event is legal when a settle names a promise that was created for that
key and has not settled yet (a JS promise settles exactly once). -/
def legalEvent (s : DedupState) : DedupEvent → Bool
  | .call _ => true
  | .settle k p => s.calls.contains (k, p) && !(s.settled.contains p)

def legalFrom (s : DedupState) : List DedupEvent → Bool
  | [] => true
  | e :: es => legalEvent s e && legalFrom (dedupStep s e) es

def dedupRun (events : List DedupEvent) : DedupState :=
  events.foldl dedupStep emptyDedup

/-- The inductive invariant of the request cache. -/
def DedupInv (s : DedupState) : Prop :=
  (∀ kp ∈ s.calls, kp.2 < s.nextId) ∧
  (s.calls.map Prod.snd).Nodup ∧
  (∀ p ∈ s.settled, p < s.nextId) ∧
  (∀ (k : String) (p : Nat),
    objGet s.cache k = some p ↔ ((k, p) ∈ s.calls ∧ p ∉ s.settled))

theorem cacheDelete_get_self (c : List (String × Nat)) (k : String) :
    objGet (cacheDelete c k) k = none := by
  unfold objGet cacheDelete
  rw [List.find?_eq_none.mpr]
  · rfl
  · intro p hp
    have := List.of_mem_filter hp
    simpa using this

theorem cacheDelete_get_ne (c : List (String × Nat)) (k k' : String) (h : k ≠ k') :
    objGet (cacheDelete c k) k' = objGet c k' := by
  induction c with
  | nil => rfl
  | cons p rest ih =>
    rcases p with ⟨pk, pv⟩
    by_cases hpk : pk = k
    · subst hpk
      show objGet (cacheDelete ((pk, pv) :: rest) pk) k' = _
      unfold cacheDelete
      rw [List.filter_cons_of_neg (by simp)]
      unfold cacheDelete at ih
      rw [ih]
      unfold objGet
      rw [List.find?_cons_of_neg _ (by simp [h])]
    · show objGet (cacheDelete ((pk, pv) :: rest) k) k' = _
      unfold cacheDelete
      rw [List.filter_cons_of_pos (by simp [hpk])]
      by_cases hpk' : pk = k'
      · subst hpk'
        unfold objGet
        rw [List.find?_cons_of_pos _ (by simp), List.find?_cons_of_pos _ (by simp)]
      · unfold objGet
        rw [List.find?_cons_of_neg _ (by simp [hpk']), List.find?_cons_of_neg _ (by simp [hpk'])]
        unfold cacheDelete objGet at ih
        exact ih

theorem dedupInv_empty : DedupInv emptyDedup := by
  refine ⟨by simp [emptyDedup], by simp [emptyDedup], by simp [emptyDedup], ?_⟩
  intro k p
  simp [emptyDedup, objGet]

theorem dedupInv_step {s : DedupState} {e : DedupEvent} (h : DedupInv s)
    (he : legalEvent s e = true) : DedupInv (dedupStep s e) := by
  obtain ⟨hA, hB, hC, hIff⟩ := h
  rcases e with k | ⟨k, p⟩
  · show DedupInv (deduplicatedRequest s k).2
    unfold deduplicatedRequest
    rcases hk : objGet s.cache k with _ | p
    · simp only
      refine ⟨?_, ?_, ?_, ?_⟩
      · intro kp hkp
        simp only at hkp
        rcases List.mem_append.mp hkp with hmem | hmem
        · exact Nat.lt_succ_of_lt (hA kp hmem)
        · simp at hmem
          rw [hmem]
          exact Nat.lt_succ_self _
      · simp only [List.map_append]
        rw [List.nodup_append]
        refine ⟨hB, by simp, ?_⟩
        intro q hq
        simp only [List.map_cons, List.map_nil, List.mem_singleton]
        intro hq'
        rcases List.mem_map.mp hq with ⟨kp, hkp, hkp2⟩
        have := hA kp hkp
        omega
      · intro q hq
        simp only at hq
        exact Nat.lt_succ_of_lt (hC q hq)
      · intro k' q
        simp only
        by_cases hkk : k = k'
        · subst hkk
          rw [objGet_objSet_self]
          constructor
          · intro hq
            simp only [Option.some.injEq] at hq
            subst hq
            refine ⟨List.mem_append.mpr (Or.inr (by simp)), ?_⟩
            intro hmem
            have := hC _ hmem
            omega
          · rintro ⟨hmem, hns⟩
            rcases List.mem_append.mp hmem with hmem' | hmem'
            · exfalso
              have : objGet s.cache k = some q := (hIff k q).mpr ⟨hmem', hns⟩
              rw [hk] at this
              exact Option.noConfusion this
            · simp at hmem'
              rw [hmem']
        · rw [objGet_objSet_ne _ _ _ _ hkk]
          rw [hIff k' q]
          constructor
          · rintro ⟨hmem, hns⟩
            exact ⟨List.mem_append.mpr (Or.inl hmem), hns⟩
          · rintro ⟨hmem, hns⟩
            rcases List.mem_append.mp hmem with hmem' | hmem'
            · exact ⟨hmem', hns⟩
            · simp at hmem'
              exact absurd hmem'.1.symm hkk
    · simpa only using ⟨hA, hB, hC, hIff⟩
  · show DedupInv (settleRequest s k p)
    simp only [legalEvent, Bool.and_eq_true, Bool.not_eq_true'] at he
    obtain ⟨hmemc', hnsp'⟩ := he
    have hmemc : (k, p) ∈ s.calls := List.mem_of_elem_eq_true hmemc'
    have hnsp : p ∉ s.settled := by
      intro hx
      have : s.settled.contains p = true := List.elem_eq_true_of_mem hx
      rw [this] at hnsp'
      exact Bool.noConfusion hnsp'
    unfold settleRequest
    refine ⟨hA, hB, ?_, ?_⟩
    · intro q hq
      simp only at hq
      rcases List.mem_append.mp hq with hq' | hq'
      · exact hC q hq'
      · simp at hq'
        rw [hq']
        exact hA _ hmemc
    · intro k' q
      simp only
      by_cases hkk : k = k'
      · subst hkk
        rw [cacheDelete_get_self]
        constructor
        · intro hq
          exact Option.noConfusion hq
        · rintro ⟨hmem, hns⟩
          exfalso
          have hq1 : objGet s.cache k = some q := (hIff k q).mpr
            ⟨hmem, fun hx => hns (List.mem_append.mpr (Or.inl hx))⟩
          have hp1 : objGet s.cache k = some p := (hIff k p).mpr ⟨hmemc, hnsp⟩
          rw [hq1] at hp1
          have : q = p := Option.some.inj hp1
          subst this
          exact hns (List.mem_append.mpr (Or.inr (by simp)))
      · rw [cacheDelete_get_ne _ _ _ hkk]
        rw [hIff k' q]
        constructor
        · rintro ⟨hmem, hns⟩
          refine ⟨hmem, ?_⟩
          intro hx
          rcases List.mem_append.mp hx with hx' | hx'
          · exact hns hx'
          · simp at hx'
            subst hx'
            have heq := List.inj_on_of_nodup_map hB hmem hmemc rfl
            simp only [Prod.mk.injEq] at heq
            exact hkk heq.1.symm
        · rintro ⟨hmem, hns⟩
          exact ⟨hmem, fun hx => hns (List.mem_append.mpr (Or.inl hx))⟩

theorem dedupInv_run : ∀ (events : List DedupEvent) (s : DedupState),
    DedupInv s → legalFrom s events = true →
    DedupInv (events.foldl dedupStep s) := by
  intro events
  induction events with
  | nil => intro s hs _; exact hs
  | cons e es ih =>
    intro s hs hl
    simp only [legalFrom, Bool.and_eq_true] at hl
    exact ih (dedupStep s e) (dedupInv_step hs hl.1) hl.2

/-- C2: in every state reachable by a legal event sequence (calls, and
settlements of previously created unsettled requests): the cache has an entry
for `k` exactly while a request for `k` is unresolved; at most one request per
key is outstanding; a call made while `k` is pending returns the very same
pending promise and leaves the state — in particular the factory-invocation
log — unchanged, so both callers observe the identical resolved value (or
error) of that shared promise; settling removes the entry for `k` immediately,
success and failure alike (the deletion runs in `finally`); and a call finding
no entry invokes the factory afresh. -/
theorem deduplicatedRequest_dedup (events : List DedupEvent)
    (hlegal : legalFrom emptyDedup events = true) :
    (∀ (k : String) (p : Nat), objGet (dedupRun events).cache k = some p ↔
      ((k, p) ∈ (dedupRun events).calls ∧ p ∉ (dedupRun events).settled)) ∧
    (∀ (k : String) (p q : Nat),
      (k, p) ∈ (dedupRun events).calls → p ∉ (dedupRun events).settled →
      (k, q) ∈ (dedupRun events).calls → q ∉ (dedupRun events).settled → p = q) ∧
    (∀ (k : String) (p : Nat), objGet (dedupRun events).cache k = some p →
      deduplicatedRequest (dedupRun events) k = (p, dedupRun events)) ∧
    (∀ (k : String) (p : Nat),
      objGet (settleRequest (dedupRun events) k p).cache k = none) ∧
    (∀ k : String, objGet (dedupRun events).cache k = none →
      (deduplicatedRequest (dedupRun events) k).2.calls =
        (dedupRun events).calls ++ [(k, (dedupRun events).nextId)]) := by
  have hinv := dedupInv_run events emptyDedup dedupInv_empty hlegal
  obtain ⟨hA, hB, hC, hIff⟩ := hinv
  refine ⟨hIff, ?_, ?_, ?_, ?_⟩
  · intro k p q hp hnp hq hnq
    have h1 := (hIff k p).mpr ⟨hp, hnp⟩
    have h2 := (hIff k q).mpr ⟨hq, hnq⟩
    rw [h1] at h2
    exact Option.some.inj h2
  · intro k p hk
    unfold deduplicatedRequest
    rw [hk]
  · intro k p
    exact cacheDelete_get_self _ _
  · intro k hk
    unfold deduplicatedRequest
    rw [hk]

/-- C2 witness: call, duplicate call, settle, fresh call — the final state has
a fresh pending promise (id 1) cached for the key. -/
theorem deduplicatedRequest_dedup_witness :
    objGet (dedupRun [DedupEvent.call "a", DedupEvent.call "a",
        DedupEvent.settle "a" 0, DedupEvent.call "a"]).cache "a" = some 1 ↔
      (("a", 1) ∈ (dedupRun [DedupEvent.call "a", DedupEvent.call "a",
        DedupEvent.settle "a" 0, DedupEvent.call "a"]).calls ∧
       1 ∉ (dedupRun [DedupEvent.call "a", DedupEvent.call "a",
        DedupEvent.settle "a" 0, DedupEvent.call "a"]).settled) :=
  (deduplicatedRequest_dedup [DedupEvent.call "a", DedupEvent.call "a",


    DedupEvent.settle "a" 0, DedupEvent.call "a"] (by decide)).1 "a" 1

/-! ## C3 / C5 / C6: the dashboard orchestrator (`initlizeUsageData`),
`componentLoading`, and `updateTagSpendData` -/

/-- JS truthiness of a nullable string credential (`null`/`undefined` and the
empty string are falsy). -/
def jsTruthyStr : Option String → Bool
  | none => false
  | some s => s ≠ ""

/-- The fields of the proxy settings the dashboard inspects. -/
structure ProxySettings where
  DISABLE_EXPENSIVE_DB_QUERIES : Bool
  NUM_SPEND_LOGS_ROWS : Nat
  deriving DecidableEq, Repr

/-- `isAdminOrAdminViewer` from the source. -/
def isAdminOrAdminViewer : Option String → Bool
  | none => false
  | some role => role == "Admin" || role == "Admin Viewer"

/-- One fetch launched by `initlizeUsageData`, with the `componentLoading` flags
it marks loaded on success and on error — transcribed from each fetch
function's body. -/
structure FetchSpec where
  name : String
  marksOnSuccess : List String
  marksOnError : List String
  deriving Repr

/-- The fetches launched for every user, in launch order. -/
def coreFetches : List FetchSpec :=
  [⟨"fetchOverallSpend", ["monthlySpend", "monthlyChart"], ["monthlySpend", "monthlyChart"]⟩,
   ⟨"fetchTopKeys", ["topKeys"], ["topKeys"]⟩,
   ⟨"fetchTopModels", ["topModels"], ["topModels"]⟩,
   ⟨"fetchGlobalActivity", ["globalActivity"], ["globalActivity"]⟩,
   ⟨"fetchGlobalActivityPerModel", [], []⟩]

/-- The fetches additionally launched for Admin / Admin Viewer users:
`fetchTeamSpend`, the six team metrics, the six tag metrics, then tag names,
top tags and top end users (the last three use `fetchAndSetData`, which marks
no flag). -/
def adminFetches : List FetchSpec :=
  [⟨"fetchTeamSpend", ["teamSpend"], ["teamSpend"]⟩,
   ⟨"fetchTeamTotalRequests", ["teamTotalRequests"], ["teamTotalRequests"]⟩,
   ⟨"fetchTeamSuccessfulRequests", ["teamSuccessfulRequests"], ["teamSuccessfulRequests"]⟩,
   ⟨"fetchTeamFailedRequests", ["teamFailedRequests"], ["teamFailedRequests"]⟩,
   ⟨"fetchTeamTotalTokens", ["teamTotalTokens"], ["teamTotalTokens"]⟩,
   ⟨"fetchTeamTotalSpend", ["teamTotalSpendMetric"], ["teamTotalSpendMetric"]⟩,
   ⟨"fetchTeamAverageCostPerRequest", ["teamAverageCostPerRequest"],
     ["teamAverageCostPerRequest"]⟩,
   ⟨"fetchTagTotalRequests", ["tagTotalRequests"], ["tagTotalRequests"]⟩,
   ⟨"fetchTagSuccessfulRequests", ["tagSuccessfulRequests"], ["tagSuccessfulRequests"]⟩,
   ⟨"fetchTagFailedRequests", ["tagFailedRequests"], ["tagFailedRequests"]⟩,
   ⟨"fetchTagTotalTokens", ["tagTotalTokens"], ["tagTotalTokens"]⟩,
   ⟨"fetchTagTotalSpend", ["tagTotalSpendMetric"], ["tagTotalSpendMetric"]⟩,
   ⟨"fetchTagAverageCostPerRequest", ["tagAverageCostPerRequest"],
     ["tagAverageCostPerRequest"]⟩,
   ⟨"fetchTagNames", [], []⟩,
   ⟨"fetchTopTags", [], []⟩,
   ⟨"fetchTopEndUsers", [], []⟩]

/-- `allDataPromises` of `initlizeUsageData`: core fetches, the admin-only
block when the caller is Admin or Admin Viewer, then `fetchProviderSpend`
(which uses `fetchAndSetData` and marks no flag). -/
def launchedFetches (userRole : Option String) : List FetchSpec :=
  coreFetches ++ (if isAdminOrAdminViewer userRole then adminFetches else []) ++
    [⟨"fetchProviderSpend", [], []⟩]

/-- The `componentLoading` state initializer: every widget starts loading. -/
def initialComponentLoading : List (String × Bool) :=
  [("monthlySpend", true), ("monthlyChart", true), ("topKeys", true), ("topModels", true),
   ("globalActivity", true), ("globalActivityPerModel", true), ("teamSpend", true),
   ("topTags", true), ("topEndUsers", true), ("providerSpend", true), ("tagNames", true),
   ("dailySummary", true), ("totalRequests", true), ("successfulRequests", true),
   ("failedRequests", true), ("totalTokens", true), ("totalSpendMetric", true),
   ("averageCostPerRequest", true), ("teamTotalRequests", true),
   ("teamSuccessfulRequests", true), ("teamFailedRequests", true), ("teamTotalTokens", true),
   ("teamTotalSpendMetric", true), ("teamAverageCostPerRequest", true),
   ("tagTotalRequests", true), ("tagSuccessfulRequests", true), ("tagFailedRequests", true),
   ("tagTotalTokens", true), ("tagTotalSpendMetric", true), ("tagAverageCostPerRequest", true)]

/-- `markComponentLoaded`: flip one widget flag to not-loading. -/
def markComponentLoaded (flags : List (String × Bool)) (component : String) :
    List (String × Bool) :=
  objSet flags component false

/-- One launched fetch settles with outcome `ok` and marks its flags. -/
def settleFetch (flags : List (String × Bool)) (f : FetchSpec) (ok : Bool) :
    List (String × Bool) :=
  (if ok then f.marksOnSuccess else f.marksOnError).foldl markComponentLoaded flags

/-- All launched fetches have settled, each with its own outcome. -/
def settleAllFetches (userRole : Option String) (outcomes : String → Bool)
    (flags : List (String × Bool)) : List (String × Bool) :=
  (launchedFetches userRole).foldl (fun fl f => settleFetch fl f (outcomes f.name)) flags

/-- Result of mounting the dashboard: the stored proxy settings, the launched
metric fetches (by name, in order) and whether the live stream was opened. -/
structure InitResult where
  proxyState : Option ProxySettings
  launched : List String
  streamOpened : Bool
  deriving DecidableEq, Repr

/-- `initlizeUsageData`: with all credentials truthy it fetches the proxy
settings; a successful settings fetch is stored, and if the expensive-query
guard is set it returns before launching anything; otherwise every fetch
launches and the spend stream is connected. (A failed settings fetch —
`fetchProxySettings` returning `undefined` — stores nothing and proceeds.) -/
def initlizeUsageData (accessToken token userRole userID : Option String)
    (fetchedSettings : Option ProxySettings) : InitResult :=
  if jsTruthyStr accessToken && jsTruthyStr token && jsTruthyStr userRole &&
      jsTruthyStr userID then
    match fetchedSettings with
    | some ps =>
      if ps.DISABLE_EXPENSIVE_DB_QUERIES then
        { proxyState := some ps, launched := [], streamOpened := false }
      else
        { proxyState := some ps, launched := (launchedFetches userRole).map FetchSpec.name,
          streamOpened := true }
    | none =>
      { proxyState := none, launched := (launchedFetches userRole).map FetchSpec.name,
        streamOpened := true }
  else { proxyState := none, launched := [], streamOpened := false }

/-- The `UsagePage` render gate: `true` means only the
"Database Query Limit Reached" notice is rendered, no widgets. -/
def usagePageRender (proxySettings : Option ProxySettings) : Bool :=
  match proxySettings with
  | some ps => ps.DISABLE_EXPENSIVE_DB_QUERIES
  | none => false

/-- `updateTagSpendData` (the effect on `dateValue`/`selectedTags`): the metric
calls it issues. It bails out on missing dates or token and when the freshly
fetched settings carry the guard; otherwise it issues `tagsSpendLogsCall` —
with no role check. -/
def updateTagSpendData (startTime endTime : Option CivilDate)
    (accessToken : Option String) (fetchedSettings : Option ProxySettings) :
    List String :=
  if startTime.isNone || endTime.isNone || !(jsTruthyStr accessToken) then []
  else if (match fetchedSettings with
    | some ps => ps.DISABLE_EXPENSIVE_DB_QUERIES
    | none => false) then []
  else ["tagsSpendLogsCall"]

theorem objGet_foldl_mark_ne (names : List String) (flags : List (String × Bool))
    (target : String) (h : target ∉ names) :
    objGet (names.foldl markComponentLoaded flags) target = objGet flags target := by
  induction names generalizing flags with
  | nil => rfl
  | cons c cs ih =>
    simp only [List.mem_cons, not_or] at h
    simp only [List.foldl_cons]
    rw [ih (markComponentLoaded flags c) h.2]
    exact objGet_objSet_ne _ _ _ _ (fun heq => h.1 heq.symm)

theorem settleFetch_preserves (f : FetchSpec) (ok : Bool) (flags : List (String × Bool))
    (target : String) (h1 : target ∉ f.marksOnSuccess) (h2 : target ∉ f.marksOnError) :
    objGet (settleFetch flags f ok) target = objGet flags target := by
  unfold settleFetch
  split
  · exact objGet_foldl_mark_ne _ _ _ h1
  · exact objGet_foldl_mark_ne _ _ _ h2

theorem settleAll_preserves (fs : List FetchSpec) (outcomes : String → Bool)
    (flags : List (String × Bool)) (target : String)
    (h : ∀ f ∈ fs, target ∉ f.marksOnSuccess ∧ target ∉ f.marksOnError) :
    objGet (fs.foldl (fun fl f => settleFetch fl f (outcomes f.name)) flags) target =
      objGet flags target := by
  induction fs generalizing flags with
  | nil => rfl
  | cons f fs ih =>
    simp only [List.foldl_cons]
    have hf := h f (List.mem_cons_self f fs)
    rw [ih _ (fun g hg => h g (List.mem_cons_of_mem f hg))]
    exact settleFetch_preserves f _ flags target hf.1 hf.2

theorem any_snd_of_objGet_true {flags : List (String × Bool)} {t : String}
    (h : objGet flags t = some true) : flags.any (fun p => p.2) = true := by
  unfold objGet at h
  rcases hf : flags.find? (fun p => p.1 == t) with _ | q
  · rw [hf] at h
    exact Option.noConfusion h
  · rw [hf] at h
    have hq : q.2 = true := by simpa using h
    have hmem := List.mem_of_find?_eq_some hf
    rw [List.any_eq_true]
    exact ⟨q, hmem, by rw [hq]⟩

theorem mem_launchedFetches {userRole : Option String} {f : FetchSpec}
    (hf : f ∈ launchedFetches userRole) :
    f ∈ coreFetches ++ adminFetches ++ [⟨"fetchProviderSpend", [], []⟩] := by
  unfold launchedFetches at hf
  rcases hb : isAdminOrAdminViewer userRole with _ | _ <;> rw [hb] at hf <;>
    simp only [List.mem_append] at hf ⊢
  · rcases hf with (hf | hf) | hf
    · exact Or.inl (Or.inl hf)
    · simp at hf
    · exact Or.inr hf
  · rcases hf with (hf | hf) | hf
    · exact Or.inl (Or.inl hf)
    · exact Or.inl (Or.inr hf)
    · exact Or.inr hf

/-- C3 is violated by the code: `fetchGlobalActivityPerModel`, provider spend,
tag names, top tags and top end users are launched by `initlizeUsageData` but
never call `markComponentLoaded`, and the `dailySummary` (and individual
metric) flags have no fetch at all — so after every launched fetch has settled,
whatever the outcomes and the role, those `componentLoading` flags are still
`true` and the dashboard's loading banner never completes. -/
theorem settleAllFetches_leaves_widgets_loading (userRole : Option String)
    (outcomes : String → Bool) :
    objGet (settleAllFetches userRole outcomes initialComponentLoading)
        "globalActivityPerModel" = some true ∧
    objGet (settleAllFetches userRole outcomes initialComponentLoading)
        "providerSpend" = some true ∧
    objGet (settleAllFetches userRole outcomes initialComponentLoading)
        "tagNames" = some true ∧
    objGet (settleAllFetches userRole outcomes initialComponentLoading)
        "topTags" = some true ∧
    objGet (settleAllFetches userRole outcomes initialComponentLoading)
        "topEndUsers" = some true ∧
    objGet (settleAllFetches userRole outcomes initialComponentLoading)
        "dailySummary" = some true ∧
    (settleAllFetches userRole outcomes initialComponentLoading).any (fun p => p.2) = true := by
  have mk : ∀ t : String,
      (∀ f ∈ coreFetches ++ adminFetches ++ [⟨"fetchProviderSpend", [], []⟩],
        t ∉ f.marksOnSuccess ∧ t ∉ f.marksOnError) →
      objGet (settleAllFetches userRole outcomes initialComponentLoading) t =
        objGet initialComponentLoading t := by
    intro t ht
    exact settleAll_preserves _ outcomes _ t (fun f hf => ht f (mem_launchedFetches hf))
  have h1 := mk "globalActivityPerModel" (by decide)
  have h2 := mk "providerSpend" (by decide)
  have h3 := mk "tagNames" (by decide)
  have h4 := mk "topTags" (by decide)
  have h5 := mk "topEndUsers" (by decide)
  have h6 := mk "dailySummary" (by decide)
  rw [h1, h2, h3, h4, h5, h6]
  refine ⟨by decide, by decide, by decide, by decide, by decide, by decide, ?_⟩
  exact any_snd_of_objGet_true (by rw [h1]; decide)

/-- C5: when the proxy settings fetched on mount carry
`DISABLE_EXPENSIVE_DB_QUERIES`, the dashboard launches zero metric fetches,
does not open the live spend stream, renders only the database-query-limit
notice, and the tag-spend effect issues no call either. -/
theorem guard_disables_dashboard (accessToken token userRole userID : Option String)
    (ps : ProxySettings) (d1 d2 : CivilDate)
    (hcreds : (jsTruthyStr accessToken && jsTruthyStr token && jsTruthyStr userRole &&
      jsTruthyStr userID) = true)
    (hguard : ps.DISABLE_EXPENSIVE_DB_QUERIES = true) :
    (initlizeUsageData accessToken token userRole userID (some ps)).launched = [] ∧
    (initlizeUsageData accessToken token userRole userID (some ps)).streamOpened = false ∧
    usagePageRender
      (initlizeUsageData accessToken token userRole userID (some ps)).proxyState = true ∧
    updateTagSpendData (some d1) (some d2) accessToken (some ps) = [] := by
  refine ⟨?_, ?_, ?_, ?_⟩
  · unfold initlizeUsageData
    rw [hcreds]
    simp [hguard]
  · unfold initlizeUsageData
    rw [hcreds]
    simp [hguard]
  · unfold initlizeUsageData
    rw [hcreds]
    simp [usagePageRender, hguard]
  · simp [updateTagSpendData, hguard]

/-- C5 witness. -/
theorem guard_disables_dashboard_witness :
    (initlizeUsageData (some "sk-1") (some "tok") (some "Admin") (some "u-1")
        (some ⟨true, 2000000⟩)).launched = [] ∧
    (initlizeUsageData (some "sk-1") (some "tok") (some "Admin") (some "u-1")
        (some ⟨true, 2000000⟩)).streamOpened = false ∧
    usagePageRender (initlizeUsageData (some "sk-1") (some "tok") (some "Admin")
        (some "u-1") (some ⟨true, 2000000⟩)).proxyState = true ∧
    updateTagSpendData (some ⟨2024, 1, 1⟩) (some ⟨2024, 1, 8⟩) (some "sk-1")
        (some ⟨true, 2000000⟩) = [] :=
  guard_disables_dashboard (some "sk-1") (some "tok") (some "Admin") (some "u-1")
    ⟨true, 2000000⟩ ⟨2024, 1, 1⟩ ⟨2024, 1, 8⟩ (by decide) (by decide)

/-- C6 counterexample: with a non-admin role, truthy credentials and the guard
inactive, the date-range effect still issues the tag breakdown request
`tagsSpendLogsCall` — `updateTagSpendData` never consults the role. -/
theorem tag_fetch_sent_for_non_admin :
    isAdminOrAdminViewer (some "Internal User") = false ∧
    updateTagSpendData (some ⟨2024, 1, 1⟩) (some ⟨2024, 1, 8⟩) (some "sk-1")
        (some ⟨false, 1000⟩) = ["tagsSpendLogsCall"] := by
  decide

/-- C6 (amended): inside `initlizeUsageData` the team/tag/customer fetches are
launched exactly when the role is Admin or Admin Viewer — for any other role
(including null) none of them is launched there; however, the tag-spend effect
issues `tagsSpendLogsCall` for every role whenever dates and token are present
and the guard is off. -/
theorem admin_fetches_gated (accessToken token userRole userID : Option String)
    (ps : ProxySettings) (d1 d2 : CivilDate)
    (hcreds : (jsTruthyStr accessToken && jsTruthyStr token && jsTruthyStr userRole &&
      jsTruthyStr userID) = true)
    (hguard : ps.DISABLE_EXPENSIVE_DB_QUERIES = false) :
    (initlizeUsageData accessToken token userRole userID (some ps)).launched =
      coreFetches.map FetchSpec.name ++
        (if isAdminOrAdminViewer userRole then adminFetches.map FetchSpec.name else []) ++
        ["fetchProviderSpend"] ∧
    (isAdminOrAdminViewer userRole = false →
      ∀ n ∈ adminFetches.map FetchSpec.name,
        n ∉ (initlizeUsageData accessToken token userRole userID (some ps)).launched) ∧
    updateTagSpendData (some d1) (some d2) accessToken (some ps) =
      ["tagsSpendLogsCall"] := by
  have htok : jsTruthyStr accessToken = true := by
    simp only [Bool.and_eq_true] at hcreds
    exact hcreds.1.1.1
  have hlaunch : (initlizeUsageData accessToken token userRole userID (some ps)).launched =
      coreFetches.map FetchSpec.name ++
        (if isAdminOrAdminViewer userRole then adminFetches.map FetchSpec.name else []) ++
        ["fetchProviderSpend"] := by
    unfold initlizeUsageData
    rw [hcreds]
    simp only [if_pos, hguard, if_false, Bool.false_eq_true]
    show (launchedFetches userRole).map FetchSpec.name = _
    unfold launchedFetches
    rw [List.map_append, List.map_append, apply_ite (List.map FetchSpec.name)]
    rfl
  refine ⟨hlaunch, ?_, ?_⟩
  · intro hrole n hn
    rw [hlaunch, hrole]
    simp only [if_false, Bool.false_eq_true]
    fin_cases hn <;> decide
  · simp [updateTagSpendData, htok, hguard]

/-- C6 amended-theorem witness. -/
theorem admin_fetches_gated_witness :
    (initlizeUsageData (some "sk-1") (some "tok") (some "Internal User") (some "u-1")
        (some ⟨false, 1000⟩)).launched =
      coreFetches.map FetchSpec.name ++
        (if isAdminOrAdminViewer (some "Internal User") then
          adminFetches.map FetchSpec.name else []) ++
        ["fetchProviderSpend"] ∧
    (isAdminOrAdminViewer (some "Internal User") = false →
      ∀ n ∈ adminFetches.map FetchSpec.name,
        n ∉ (initlizeUsageData (some "sk-1") (some "tok") (some "Internal User")
          (some "u-1") (some ⟨false, 1000⟩)).launched) ∧
    updateTagSpendData (some ⟨2024, 1, 1⟩) (some ⟨2024, 1, 8⟩) (some "sk-1")
        (some ⟨false, 1000⟩) = ["tagsSpendLogsCall"] :=
  admin_fetches_gated (some "sk-1") (some "tok") (some "Internal User") (some "u-1")
    ⟨false, 1000⟩ ⟨2024, 1, 1⟩ ⟨2024, 1, 8⟩ (by decide) (by decide)

/-! ## C4: the live spend stream — reconnect timer and teardown -/

/-- State of the spend-stream client: current time in ms, the `accessToken`
captured by the closures, `eventSourceRef.current`, the id for the next
`EventSource`, the due times of pending reconnect `setTimeout` callbacks, and
logs of connections opened (id, time) and closed. -/
structure StreamState where
  now : Nat
  accessToken : Option String
  eventSourceRef : Option Nat
  nextConnId : Nat
  timers : List Nat
  opens : List (Nat × Nat)
  closed : List Nat
  deriving DecidableEq, Repr

/-- `connectToSpendStream`: no-op without a token or while a connection is
already held; otherwise open a new `EventSource` and store it in the ref. -/
def connectToSpendStream (s : StreamState) : StreamState :=
  if !(jsTruthyStr s.accessToken) || s.eventSourceRef.isSome then s
  else
    { s with eventSourceRef := some s.nextConnId, nextConnId := s.nextConnId + 1,
             opens := s.opens ++ [(s.nextConnId, s.now)] }

/-- `eventSource.onerror` on connection `c`: close it, clear the ref, and
schedule the reconnect `setTimeout(..., 5000)` — due exactly 5000 ms from now. -/
def onStreamError (s : StreamState) (c : Nat) : StreamState :=
  { s with closed := s.closed ++ [c], eventSourceRef := none,
           timers := s.timers ++ [s.now + 5000] }

/-- The unmount cleanup effect: close the current connection and clear the ref.
It does not touch `timers` — no pending reconnect `setTimeout` is cancelled. -/
def streamCleanup (s : StreamState) : StreamState :=
  match s.eventSourceRef with
  | some c => { s with closed := s.closed ++ [c], eventSourceRef := none }
  | none => s

/-- The body of the scheduled reconnect callback:
`if (accessToken) connectToSpendStream()`. -/
def reconnectCallback (s : StreamState) : StreamState :=
  if jsTruthyStr s.accessToken then connectToSpendStream s else s

/-- A scheduled reconnect timer fires at its due time `t` (the event-loop runs
the callback only while the timer is still pending). -/
def fireReconnect (s : StreamState) (t : Nat) : StreamState :=
  if s.timers.contains t then
    reconnectCallback { s with now := t, timers := s.timers.erase t }
  else s

/-- C4 counterexample: connect at 0, error at 1000 (reconnect timer due 6000),
teardown at 2000 — before the 5 s elapse — yet the timer still fires at 6000
and opens a second connection: teardown does not prevent the reconnect. -/
theorem stream_reconnect_fires_after_teardown :
    (onStreamError
        { (connectToSpendStream ⟨0, some "sk-1", none, 0, [], [], []⟩) with
          now := 1000 } 0).timers = [6000] ∧
    (streamCleanup
        { (onStreamError
            { (connectToSpendStream ⟨0, some "sk-1", none, 0, [], [], []⟩) with
              now := 1000 } 0) with now := 2000 }).eventSourceRef = none ∧
    (fireReconnect
        (streamCleanup
          { (onStreamError
              { (connectToSpendStream ⟨0, some "sk-1", none, 0, [], [], []⟩) with
                now := 1000 } 0) with now := 2000 })
        6000).opens = [(0, 0), (1, 6000)] := by
  decide

/-- C4 (amended): an error on the open connection schedules exactly one
reconnect timer, due exactly 5000 ms later (fixed delay, no backoff); firing it
then reopens a connection. Teardown closes the connection but leaves the timer
scheduled, and because the captured `accessToken` is still set and the ref was
cleared, the reconnect fires and opens a new connection even after teardown. -/
theorem stream_reconnect_after_error (s : StreamState) (c : Nat)
    (htok : jsTruthyStr s.accessToken = true) :
    (onStreamError s c).timers = s.timers ++ [s.now + 5000] ∧
    (streamCleanup (onStreamError s c)).timers = s.timers ++ [s.now + 5000] ∧
    (fireReconnect (onStreamError s c) (s.now + 5000)).opens =
      s.opens ++ [(s.nextConnId, s.now + 5000)] ∧
    (fireReconnect (streamCleanup (onStreamError s c)) (s.now + 5000)).opens =
      s.opens ++ [(s.nextConnId, s.now + 5000)] := by
  have hmem : (s.timers ++ [s.now + 5000]).contains (s.now + 5000) = true :=
    List.elem_eq_true_of_mem (List.mem_append.mpr (Or.inr (by simp)))
  refine ⟨rfl, rfl, ?_, ?_⟩
  · simp [fireReconnect, reconnectCallback, connectToSpendStream, onStreamError, hmem, htok]
  · simp [fireReconnect, reconnectCallback, connectToSpendStream, onStreamError,
      streamCleanup, hmem, htok]

/-- C4 amended-theorem witness. -/
theorem stream_reconnect_after_error_witness :
    (onStreamError ⟨1000, some "sk-1", some 0, 1, [], [(0, 0)], []⟩ 0).timers =
      [] ++ [1000 + 5000] ∧
    (streamCleanup (onStreamError ⟨1000, some "sk-1", some 0, 1, [], [(0, 0)], []⟩ 0)).timers =
      [] ++ [1000 + 5000] ∧
    (fireReconnect (onStreamError ⟨1000, some "sk-1", some 0, 1, [], [(0, 0)], []⟩ 0)
        (1000 + 5000)).opens = [(0, 0)] ++ [(1, 1000 + 5000)] ∧
    (fireReconnect
        (streamCleanup (onStreamError ⟨1000, some "sk-1", some 0, 1, [], [(0, 0)], []⟩ 0))
        (1000 + 5000)).opens = [(0, 0)] ++ [(1, 1000 + 5000)] :=
  stream_reconnect_after_error ⟨1000, some "sk-1", some 0, 1, [], [(0, 0)], []⟩ 0 (by decide)

/-! ## C7: the stream `onmessage` handler -/

/-- A JSON value, as delivered by `JSON.parse` on a stream message. -/
inductive JVal where
  | null
  | bool (b : Bool)
  | num (n : Int)
  | str (s : String)
  | arr (items : List JVal)
  | obj (fields : List (String × JVal))

/-- JS member access `x.f`: `none` models `undefined` (non-objects have no
fields). -/
def jget : JVal → String → Option JVal
  | .obj fields, k => objGet fields k
  | _, _ => none

/-- JS truthiness of a JSON value. -/
def jtruthy : JVal → Bool
  | .null => false
  | .bool b => b
  | .num n => n ≠ 0
  | .str s => s ≠ ""
  | .arr _ => true
  | .obj _ => true

/-- JS `x === 'update'` for a possibly-undefined member: true exactly for the
string `"update"`. -/
def isUpdateTag : Option JVal → Bool
  | some (JVal.str s) => s == "update"
  | _ => false

/-- `eventSource.onmessage`: parse the JSON envelope (`none` models a
`JSON.parse` throw, caught and logged); if `data.type === 'update' && data.data`
run `setTotalMonthlySpend(prev => data.data.total_spend || prev)`; any other
message leaves the tracked value unchanged. The handler is total: no error
escapes it. -/
def onStreamMessage (parsed : Option JVal) (prev : JVal) : JVal :=
  match parsed with
  | none => prev
  | some data =>
    if isUpdateTag (jget data "type") &&
        (match jget data "data" with
         | some d => jtruthy d
         | none => false) then
      match jget data "data" with
      | some d =>
        match jget d "total_spend" with
        | some v => if jtruthy v then v else prev
        | none => prev
      | none => prev
    else prev

/-- C7 counterexample: an `update` envelope carrying the numeric
`total_spend: 0` does not replace the tracked value — `0 || prev` keeps `prev`. -/
theorem total_spend_zero_not_applied :
    onStreamMessage
        (some (JVal.obj [("type", JVal.str "update"),
          ("data", JVal.obj [("total_spend", JVal.num 0)])]))
        (JVal.num 5) = JVal.num 5 ∧
    JVal.num 5 ≠ JVal.num 0 :=
  ⟨rfl, by simp⟩

/-- C7 (amended): an envelope whose tag is `'update'`, whose `data` is truthy
and whose `data.total_spend` is truthy replaces the tracked value with that
`total_spend` (whatever its JSON type); every other message — different or
missing tag, missing or falsy `data`, absent or falsy `total_spend` (such as
the number `0`), or unparseable JSON — leaves the tracked value unchanged, and
no error is raised (the handler is total). -/
theorem onStreamMessage_spec (data d v prev : JVal) :
    (isUpdateTag (jget data "type") = true → jget data "data" = some d →
      jtruthy d = true → jget d "total_spend" = some v → jtruthy v = true →
      onStreamMessage (some data) prev = v) ∧
    (isUpdateTag (jget data "type") = false → onStreamMessage (some data) prev = prev) ∧
    (jget data "data" = none → onStreamMessage (some data) prev = prev) ∧
    (jget data "data" = some d → jtruthy d = false →
      onStreamMessage (some data) prev = prev) ∧
    (jget data "data" = some d → jget d "total_spend" = none →
      onStreamMessage (some data) prev = prev) ∧
    (jget data "data" = some d → jget d "total_spend" = some v → jtruthy v = false →
      onStreamMessage (some data) prev = prev) ∧
    onStreamMessage none prev = prev := by
  refine ⟨?_, ?_, ?_, ?_, ?_, ?_, rfl⟩
  · intro h1 h2 h3 h4 h5
    simp [onStreamMessage, h1, h2, h3, h4, h5]
  · intro h1
    simp [onStreamMessage, h1]
  · intro h2
    simp [onStreamMessage, h2]
  · intro h2 h3
    simp [onStreamMessage, h2, h3]
  · intro h2 h4
    simp [onStreamMessage, h2, h4]
  · intro h2 h4 h5
    simp [onStreamMessage, h2, h4, h5]

/-- C7 amended-theorem witness: a truthy `total_spend` is applied. -/
theorem onStreamMessage_spec_witness :
    onStreamMessage
        (some (JVal.obj [("type", JVal.str "update"),
          ("data", JVal.obj [("total_spend", JVal.num 42)])]))
        (JVal.num 5) = JVal.num 42 :=
  (onStreamMessage_spec
    (JVal.obj [("type", JVal.str "update"),
      ("data", JVal.obj [("total_spend", JVal.num 42)])])
    (JVal.obj [("total_spend", JVal.num 42)]) (JVal.num 42) (JVal.num 5)).1
    rfl rfl rfl rfl rfl

/-! ## C9: the SSO configuration cache in local persistent storage -/

/-- One `localStorage` operation on the single key `litellm_sso_config`.
Config payloads are modelled as their JSON strings; `JSON.parse` of a
previously stringified payload is the identity, so the catch/`removeItem`
branch for a corrupted cache entry is unreachable in the model. -/
inductive LSOp where
  | read (result : Option String)
  | write (value : String)
  deriving DecidableEq, Repr

/-- Result of the initial `fetchSSOConfig` effect: the cache value afterwards,
the `localStorage` operations performed in order, the SSO config left in
component state, and the `isSSOConfigLoaded` flag. -/
structure SSOFetchResult where
  store : Option String
  ops : List LSOp
  ssoConfig : Option String
  loaded : Bool
  deriving DecidableEq, Repr

/-- `fetchSSOConfig` on mount. `backend` encodes `getSSOProviderConfig`:
`none` a thrown call, `some none` success without `config`, `some (some c)`
success with config `c`. With config: store it in state and write the cache.
Without config: read the cache, restore it briefly, then `setSSOConfig(null)`
overwrites the restore. On a throw: read the cache and keep it as the state.
With no token: no backend call, restore from the cache only. -/
def fetchSSOConfig (accessToken : Option String) (backend : Option (Option String))
    (store0 : Option String) : SSOFetchResult :=
  match accessToken with
  | none =>
    { store := store0, ops := [LSOp.read store0], ssoConfig := store0, loaded := true }
  | some _ =>
    match backend with
    | some (some cfg) =>
      { store := some cfg, ops := [LSOp.write cfg], ssoConfig := some cfg, loaded := true }
    | some none =>
      { store := store0, ops := [LSOp.read store0], ssoConfig := none, loaded := true }
    | none =>
      { store := store0, ops := [LSOp.read store0], ssoConfig := store0, loaded := true }

/-- `handleSSOUpdate` after form submit. `updateOutcome`: `none` a thrown
`updateSSOProviderConfig` call, `some false` a response without
`status: 'success'`, `some true` success; on success the config is re-fetched
(`refetch`, encoded like `backend`) and a returned config payload is written to
the cache. Returns the cache value afterwards and the operations performed. -/
def handleSSOUpdate (accessToken : Option String) (updateOutcome : Option Bool)
    (refetch : Option (Option String)) (store0 : Option String) :
    Option String × List LSOp :=
  match accessToken with
  | none => (store0, [])
  | some _ =>
    match updateOutcome with
    | some true =>
      match refetch with
      | some (some cfg) => (some cfg, [LSOp.write cfg])
      | _ => (store0, [])
    | _ => (store0, [])

/-- C9 counterexample: a backend call that succeeds but returns no `config`
reads the cache (and writes nothing) — so the cache is not "read exactly when
the backend call fails". -/
theorem sso_cache_read_on_success :
    (fetchSSOConfig (some "tok") (some none) (some "cfg-A")).ops =
      [LSOp.read (some "cfg-A")] := by
  decide

/-- C9 (amended): a single cache key; the cache is written exactly when a
backend SSO-config call succeeds with a config payload (the initial fetch, and
the refetch after a successful update — and then the fetched payload is what is
written and kept); it is read exactly when the initial fetch fails, succeeds
without a payload, or is skipped for lack of a token. The update path never
reads the cache. -/
theorem sso_cache_policy (accessToken : Option String) (backend : Option (Option String))
    (updateOutcome : Option Bool) (refetch : Option (Option String))
    (store0 : Option String) :
    ((∃ c, LSOp.write c ∈ (fetchSSOConfig accessToken backend store0).ops) ↔
      (accessToken.isSome = true ∧ ∃ c, backend = some (some c))) ∧
    ((∃ r, LSOp.read r ∈ (fetchSSOConfig accessToken backend store0).ops) ↔
      (accessToken = none ∨ backend = none ∨ backend = some none)) ∧
    (∀ c, accessToken.isSome = true → backend = some (some c) →
      (fetchSSOConfig accessToken backend store0).store = some c ∧
      (fetchSSOConfig accessToken backend store0).ssoConfig = some c) ∧
    (accessToken.isSome = true → backend = none →
      (fetchSSOConfig accessToken backend store0).ops = [LSOp.read store0] ∧
      (fetchSSOConfig accessToken backend store0).ssoConfig = store0) ∧
    ((∃ c, LSOp.write c ∈ (handleSSOUpdate accessToken updateOutcome refetch store0).2) ↔
      (accessToken.isSome = true ∧ updateOutcome = some true ∧
        ∃ c, refetch = some (some c))) ∧
    (∀ r, LSOp.read r ∉ (handleSSOUpdate accessToken updateOutcome refetch store0).2) := by
  rcases accessToken with _ | tok
  · refine ⟨?_, ?_, ?_, ?_, ?_, ?_⟩ <;>
      simp [fetchSSOConfig, handleSSOUpdate]
  · rcases backend with _ | cfg
    · refine ⟨?_, ?_, ?_, ?_, ?_, ?_⟩
      · simp [fetchSSOConfig]
      · simp [fetchSSOConfig]
      · simp
      · simp [fetchSSOConfig]
      · rcases updateOutcome with _ | b
        · simp [handleSSOUpdate]
        · rcases b with _ | _
          · simp [handleSSOUpdate]
          · rcases refetch with _ | rc
            · simp [handleSSOUpdate]
            · rcases rc with _ | c <;> simp [handleSSOUpdate]
      · rcases updateOutcome with _ | b
        · simp [handleSSOUpdate]
        · rcases b with _ | _
          · simp [handleSSOUpdate]
          · rcases refetch with _ | rc
            · simp [handleSSOUpdate]
            · rcases rc with _ | c <;> simp [handleSSOUpdate]
    · rcases cfg with _ | c
      · refine ⟨?_, ?_, ?_, ?_, ?_, ?_⟩
        · simp [fetchSSOConfig]
        · simp [fetchSSOConfig]
        · simp
        · simp
        · rcases updateOutcome with _ | b
          · simp [handleSSOUpdate]
          · rcases b with _ | _
            · simp [handleSSOUpdate]
            · rcases refetch with _ | rc
              · simp [handleSSOUpdate]
              · rcases rc with _ | c <;> simp [handleSSOUpdate]
        · rcases updateOutcome with _ | b
          · simp [handleSSOUpdate]
          · rcases b with _ | _
            · simp [handleSSOUpdate]
            · rcases refetch with _ | rc
              · simp [handleSSOUpdate]
              · rcases rc with _ | c <;> simp [handleSSOUpdate]
      · refine ⟨?_, ?_, ?_, ?_, ?_, ?_⟩
        · simp [fetchSSOConfig]
        · simp [fetchSSOConfig]
        · intro c2 _ hb
          simp only [Option.some.injEq] at hb
          subst hb
          exact ⟨rfl, rfl⟩
        · intro _ hb
          exact Option.noConfusion hb
        · rcases updateOutcome with _ | b
          · simp [handleSSOUpdate]
          · rcases b with _ | _
            · simp [handleSSOUpdate]
            · rcases refetch with _ | rc
              · simp [handleSSOUpdate]
              · rcases rc with _ | c2 <;> simp [handleSSOUpdate]
        · rcases updateOutcome with _ | b
          · simp [handleSSOUpdate]
          · rcases b with _ | _
            · simp [handleSSOUpdate]
            · rcases refetch with _ | rc
              · simp [handleSSOUpdate]
              · rcases rc with _ | c2 <;> simp [handleSSOUpdate]

/-- C9 amended-theorem witness: a successful initial fetch with a payload
writes exactly that payload. -/
theorem sso_cache_policy_witness :
    (fetchSSOConfig (some "tok") (some (some "cfg-B")) none).store = some "cfg-B" ∧
    (fetchSSOConfig (some "tok") (some (some "cfg-B")) none).ssoConfig = some "cfg-B" :=
  (sso_cache_policy (some "tok") (some (some "cfg-B")) (some true) (some (some "cfg-B"))
    none).2.2.1 "cfg-B" rfl rfl

end Usage
